import Mathlib

/-!
# Verification of the DOCX document-surgery layer

Shallow embedding of the OOXML paragraph/comment manipulation code of the
`docx-editor` repository (`src/docx_editor/views.py`,
`src/docx_editor/docx_parser.py`) and proofs about it.

The embedding models the parsed form of `word/document.xml` as a list of body
children, each either a paragraph (an ordered list of paragraph children:
runs, comment range anchors, paragraph properties) or an opaque non-paragraph
element (e.g. `sectPr`).  A run is an ordered list of run children: text nodes
(`w:t`), drawings (`w:drawing`, with a flag recording whether its blip
relationship resolves to an extracted image), run properties (`w:rPr`,
carrying the formatting element names, e.g. bold/italic), and
`w:commentReference` elements.  Python strings are modelled as Lean `String`;
derived text is computed as `List Char` so that list lemmas apply.

Tables, headers and footers are out of scope of the source system, so every
`w:p` element of `document.xml` is a direct child of `w:body`; hence the
element lists returned by `root.findall('.//w:p')` (used by
`EditParagraphView.update_paragraph_in_docx`,
`UploadDocumentView.find_comment_paragraph_id`,
`AddCommentView.add_comment_reference_to_document` and the parser) and by
`body.findall('w:p')` (used by `AddParagraphView.add_paragraph_to_docx` and
`DeleteParagraphView.delete_paragraph_from_docx`) coincide: both are the body
paragraphs in document order, which is what `parasOf` returns below.
-/

set_option autoImplicit false
set_option linter.unnecessarySeqFocus false

namespace DocxSurgery

/-- A `w:t` node: its text and whether `xml:space="preserve"` is set. -/
structure TextNode where
  text : String
  preserve : Bool
deriving DecidableEq, Repr

/-- A child element of a `w:r` run. -/
inductive RunChild where
  /-- a `w:t` text node -/
  | t (node : TextNode)
  /-- a `w:drawing`; `resolved` records whether its `a:blip` relationship id
  is among the successfully extracted image relationships -/
  | drawing (resolved : Bool)
  /-- a `w:rPr` run-properties element carrying formatting element names -/
  | rPr (fmts : List String)
  /-- a `w:commentReference` with its `w:id` attribute -/
  | commentReference (id : Nat)
deriving DecidableEq, Repr

/-- A `w:r` run. -/
structure Run where
  children : List RunChild
deriving DecidableEq, Repr

/-- A child element of a `w:p` paragraph. -/
inductive ParaChild where
  | run (r : Run)
  | commentRangeStart (id : Nat)
  | commentRangeEnd (id : Nat)
  /-- a `w:pPr` paragraph-properties element (opaque: style names) -/
  | pPr (style : List String)
deriving DecidableEq, Repr

/-- A `w:p` paragraph. -/
structure Para where
  children : List ParaChild
deriving DecidableEq, Repr

/-- A direct child of `w:body`. -/
inductive BodyChild where
  | p (para : Para)
  /-- non-paragraph body element (e.g. `w:sectPr`) that must not be disturbed -/
  | other (tag : String)
deriving DecidableEq, Repr

/-! ## Derived text and the numbering predicates -/

/-- Python's `"".join` of `t.text` over `run.findall('.//w:t')`:
the concatenated text of the `w:t` children of a run, as characters. -/
def runTextChars (r : Run) : List Char :=
  r.children.foldr
    (fun c acc =>
      match c with
      | .t node => node.text.data ++ acc
      | _ => acc) []

/-- All `w:t` nodes of a paragraph in document order
(`para.findall('.//w:t')`). -/
def paraTextNodes (q : Para) : List TextNode :=
  q.children.foldr
    (fun c acc =>
      match c with
      | .run r =>
          (r.children.filterMap
            (fun rc =>
              match rc with
              | .t node => some node
              | _ => none)) ++ acc
      | _ => acc) []

/-- Concatenation of a list of text nodes, as characters. -/
def concatTexts (ns : List TextNode) : List Char :=
  ns.foldr (fun n acc => n.text.data ++ acc) []

/-- `para_text` as every view-side scan computes it: concatenation of all
`w:t` descendants of the paragraph (views.py lines 327-330, 789-793,
952-956, 1111-1115, 1299-1303). -/
def viewsParaText (q : Para) : List Char :=
  concatTexts (paraTextNodes q)

/-- `s.strip()` is falsy in Python exactly when every character is
whitespace. -/
def isBlankChars (l : List Char) : Bool :=
  l.all Char.isWhitespace

/-- The view-side numbering predicate: `para_text.strip()` is truthy. -/
def paraNonBlank (q : Para) : Bool :=
  !(isBlankChars (viewsParaText q))

/-- Python's `str.strip()`: drop leading and trailing whitespace. -/
def stripChars (l : List Char) : List Char :=
  ((l.dropWhile Char.isWhitespace).reverse.dropWhile Char.isWhitespace).reverse

/-- The paragraphs of the body, in document order (this is both
`root.findall('.//w:p')` and `body.findall('w:p')`, see the header note). -/
def parasOf (body : List BodyChild) : List Para :=
  body.filterMap
    (fun c =>
      match c with
      | .p q => some q
      | .other _ => none)

/-- Count of paragraphs a view-side scan numbers. -/
def countNumbered (ps : List Para) : Nat :=
  ps.countP paraNonBlank

/-- Count of view-numbered paragraphs among body children. -/
def countNumberedB (body : List BodyChild) : Nat :=
  countNumbered (parasOf body)

/-! ### The parser's predicate (docx_parser.py)

`EnhancedDocxParser._process_run` first appends the text of every `w:t`
descendant of the run and then, for every `w:drawing` whose blip relationship
resolves to an extracted image, appends the marker `'[IMAGE]'` to the text and
sets `has_image` (docx_parser.py lines 232-256).
`_parse_paragraphs` numbers a paragraph iff `text_content.strip() or
has_images` (lines 139-152). -/

/-- The `'[IMAGE]'` marker appended by `_process_run`. -/
def imageMark : List Char := ("[IMAGE]").data

/-- Number of resolved drawings in a run. -/
def runResolvedDrawings (r : Run) : Nat :=
  r.children.countP
    (fun c =>
      match c with
      | .drawing resolved => resolved
      | _ => false)

/-- `run_text` as `_process_run` computes it: the `w:t` texts followed by one
`'[IMAGE]'` marker per resolved drawing. -/
def parserRunText (r : Run) : List Char :=
  runTextChars r ++ (List.replicate (runResolvedDrawings r) imageMark).flatten

/-- `text_content` of `_process_paragraph`: run texts joined in run order. -/
def parserParaText (q : Para) : List Char :=
  q.children.foldr
    (fun c acc =>
      match c with
      | .run r => parserRunText r ++ acc
      | _ => acc) []

/-- `has_images` of `_process_paragraph`. -/
def paraHasResolvedDrawing (q : Para) : Bool :=
  q.children.any
    (fun c =>
      match c with
      | .run r => 0 < runResolvedDrawings r
      | _ => false)

/-- The parser's numbering predicate:
`text_content.strip() or has_images` (docx_parser.py line 144). -/
def parserCountsPara (q : Para) : Bool :=
  !(isBlankChars (parserParaText q)) || paraHasResolvedDrawing q

/-- Position-wise derived-number assignment of a scan using predicate `pred`:
the i-th entry is `some n` when the i-th paragraph receives derived number
`n`, and `none` when the scan skips it. -/
def numberAssignment (pred : Para → Bool) : List Para → Nat → List (Option Nat)
  | [], _ => []
  | q :: rest, cnt =>
      if pred q then some (cnt + 1) :: numberAssignment pred rest (cnt + 1)
      else none :: numberAssignment pred rest cnt

/-- Derived numbers the view-side scans assign to the body paragraphs. -/
def viewsNumbers (body : List BodyChild) : List (Option Nat) :=
  numberAssignment paraNonBlank (parasOf body) 0

/-- Derived numbers the upload parser assigns to the body paragraphs. -/
def parserNumbers (body : List BodyChild) : List (Option Nat) :=
  numberAssignment parserCountsPara (parasOf body) 0

/-! ## Locating a paragraph by derived number

Every view-side mutator re-implements the same loop: walk the paragraphs,
keep a counter of non-blank ones, and act on the paragraph whose counter
value equals the requested id.  `scanGo body cnt pid` returns the index
(among the body children) of the acted-on paragraph. -/

def scanGo : List BodyChild → Nat → Nat → Option Nat
  | [], _, _ => none
  | .p q :: rest, cnt, pid =>
      if paraNonBlank q then
        if cnt + 1 = pid then some 0
        else (scanGo rest (cnt + 1) pid).map (· + 1)
      else (scanGo rest cnt pid).map (· + 1)
  | .other _ :: rest, cnt, pid => (scanGo rest cnt pid).map (· + 1)

/-- Body-children index of the `pid`-th view-numbered paragraph. -/
def scanForParagraph (body : List BodyChild) (pid : Nat) : Option Nat :=
  scanGo body 0 pid

/-! ## Replace paragraph text
(`EditParagraphView.update_paragraph_in_docx`, views.py lines 784-824) -/

/-- Remove every `w:t` child of a run (views.py lines 803-806: the removed
`text_elements` are the run's `w:t` elements; `w:rPr`, drawings and
`w:commentReference` stay). -/
def stripRunTexts (r : Run) : Run :=
  ⟨r.children.filter
    (fun c =>
      match c with
      | .t _ => false
      | _ => true)⟩

/-- Does the paragraph contain a run (`para.findall('.//w:r')` non-empty)? -/
def paraHasRun (q : Para) : Bool :=
  q.children.any
    (fun c =>
      match c with
      | .run _ => true
      | _ => false)

/-- Append a `w:t` node at the end of the first run's children
(`ET.SubElement(first_run, 'w:t')`, views.py lines 815-820). -/
def addTextToFirstRun : List ParaChild → TextNode → List ParaChild
  | [], _ => []
  | .run r :: rest, node => .run ⟨r.children ++ [.t node]⟩ :: rest
  | .commentRangeStart j :: rest, node =>
      .commentRangeStart j :: addTextToFirstRun rest node
  | .commentRangeEnd j :: rest, node =>
      .commentRangeEnd j :: addTextToFirstRun rest node
  | .pPr st :: rest, node => .pPr st :: addTextToFirstRun rest node

/-- Apply the text-clearing loop of views.py lines 803-806 to the children
of a paragraph: every run loses its `w:t` children, everything else stays. -/
def clearRunTexts (cs : List ParaChild) : List ParaChild :=
  cs.map
    (fun c =>
      match c with
      | .run r => .run (stripRunTexts r)
      | _ => c)

/-- The per-paragraph transformation of views.py lines 799-820: clear all
text elements of all runs; create a run (appended at the end of the
paragraph, `ET.SubElement`) if the paragraph had none; if `new_text.strip()`
is truthy, append the new text node to the first run, with
`xml:space="preserve"` iff `new_text != new_text.strip()`. -/
def replaceParaText (q : Para) (newText : String) : Para :=
  let cleared := clearRunTexts q.children
  let withRun := if paraHasRun q then cleared else cleared ++ [.run ⟨[]⟩]
  if isBlankChars newText.data then ⟨withRun⟩
  else
    ⟨addTextToFirstRun withRun
      ⟨newText, decide (stripChars newText.data ≠ newText.data)⟩⟩

/-- `update_paragraph_in_docx`, document.xml step (views.py lines 784-824):
walk the paragraphs counting non-blank ones and rewrite the `paragraph_id`-th;
if the counter never reaches `paragraph_id` the loop simply ends and the
document is written back unchanged (no exception is raised). -/
def updateParagraphInDocx (body : List BodyChild) (pid : Nat)
    (newText : String) : List BodyChild :=
  match scanForParagraph body pid with
  | none => body
  | some i =>
      match body[i]? with
      | some (.p q) => body.set i (.p (replaceParaText q newText))
      | _ => body

/-! ## Insert paragraph
(`AddParagraphView.add_paragraph_to_docx`, views.py lines 899-988) -/

/-- List insertion with Python `list.insert` semantics (index past the end
appends; `ElementTree.Element.insert` delegates to it). -/
def insertAt : List BodyChild → Nat → BodyChild → List BodyChild
  | l, 0, a => a :: l
  | [], _ + 1, a => [a]
  | b :: l, n + 1, a => b :: insertAt l n a

/-- The new paragraph built at views.py lines 932-936: one run with one text
node whose text is `text` when `text.strip()` is truthy and a single space
otherwise; `xml:space` is never set on it. -/
def mkNewPara (text : String) : Para :=
  ⟨[.run ⟨[.t ⟨if isBlankChars text.data then (" ") else text, false⟩]⟩]⟩

/-- The insertion-index loop of views.py lines 947-963: walk the paragraph
list keeping a count of non-blank paragraphs; after each paragraph (whether
or not it was counted) compare the count with `position - 1` and, on the
first match at paragraph index `i`, use insertion index `i + 1`.
`insertScan target ps cnt` returns that index relative to `ps`. -/
def insertScan (target : Nat) : List Para → Nat → Option Nat
  | [], _ => none
  | q :: rest, cnt =>
      let cnt2 := if paraNonBlank q then cnt + 1 else cnt
      if cnt2 = target then some 1
      else (insertScan target rest cnt2).map (· + 1)

/-- `add_paragraph_to_docx`, document.xml step (views.py lines 899-988).
When a positive `position` is given the insertion index is computed from the
paragraph list (`body.findall('w:p')`) but used as an index into the full
body child list (`body.insert`), defaulting to `len(all_paragraphs)`;
otherwise the new paragraph is appended at the end of the body. -/
def addParagraphToDocx (body : List BodyChild) (text : String)
    (position : Option Nat) : List BodyChild :=
  let newPara := mkNewPara text
  match position with
  | some pos =>
      if 0 < pos then
        let ps := parasOf body
        let idx := (insertScan (pos - 1) ps 0).getD ps.length
        insertAt body idx (.p newPara)
      else body ++ [.p newPara]
  | none => body ++ [.p newPara]

/-! ## Delete paragraph
(`DeleteParagraphView.delete_paragraph_from_docx`, views.py lines 1068-1149) -/

/-- `delete_paragraph_from_docx`, document.xml step: remove the
`paragraph_id`-th non-blank paragraph from the body
(`body.remove(para)`); raise `Paragraph ... not found in document` when the
counter never reaches `paragraph_id` (views.py lines 1105-1128). -/
def deleteParagraphFromDocx (body : List BodyChild) (pid : Nat) :
    Except String (List BodyChild) :=
  match scanForParagraph body pid with
  | some i => .ok (body.eraseIdx i)
  | none => .error ("Paragraph not found in document")

/-- The `DeleteParagraphView.delete` endpoint around the file-side delete
(views.py lines 1005-1020): after resolving the paragraph record, refuse with
`Cannot delete the last paragraph` when the metadata store holds at most one
paragraph record, before the archive is touched; otherwise run the file-side
delete, restoring the archive on failure (the backup/restore envelope).
Returns the error response (if any) and the resulting on-disk document. -/
def deleteParagraphEndpoint (dbParagraphIds : List Nat)
    (body : List BodyChild) (pid : Nat) :
    Option String × List BodyChild :=
  if pid ∈ dbParagraphIds then
    if dbParagraphIds.length ≤ 1 then
      (some ("Cannot delete the last paragraph"), body)
    else
      match deleteParagraphFromDocx body pid with
      | .ok body2 => (none, body2)
      | .error e => (some e, body)
  else (some ("Paragraph not found"), body)

/-! ## Comment subsystem -/

/-- An entry of `word/comments.xml`: `w:id`, `w:author`, and the texts of its
body paragraphs (one entry per `w:p`, each the concatenation of its `w:t`
texts).  The `w:date` attribute carries no claim-relevant information and is
omitted. -/
structure CommentEntry where
  id : Nat
  author : String
  paragraphTexts : List String
deriving DecidableEq, Repr

/-- In-memory state of the package parts the comment operations touch:
the parsed `document.xml` body and the optional `comments.xml` part. -/
structure DocxState where
  body : List BodyChild
  comments : Option (List CommentEntry)
deriving DecidableEq, Repr

/-- `AddCommentView.add_comment_reference_to_document` (views.py lines
1281-1330): locate the `paragraph_id`-th non-blank paragraph; if it exists
and contains a run (`para.find('.//w:r') is not None`), insert
`commentRangeStart` as child 0, append `commentRangeEnd`, and append a new
run holding `commentReference`; otherwise leave the document unchanged. -/
def anchorPara (q : Para) (cid : Nat) : Para :=
  ⟨.commentRangeStart cid :: q.children ++
    [.commentRangeEnd cid, .run ⟨[.commentReference cid]⟩]⟩

def addCommentReferenceToDocument (body : List BodyChild) (pid cid : Nat) :
    List BodyChild :=
  match scanForParagraph body pid with
  | none => body
  | some i =>
      match body[i]? with
      | some (.p q) =>
          if paraHasRun q then body.set i (.p (anchorPara q cid)) else body
      | _ => body

/-- Remove from one run every `commentReference` whose id matches. -/
def runRemoveRefs (r : Run) (cid : Nat) : Run :=
  ⟨r.children.filter
    (fun rc =>
      match rc with
      | .commentReference j => !(j = cid)
      | _ => true)⟩

/-- Remove from one paragraph every anchor element whose id matches. -/
def paraRemoveAnchors (q : Para) (cid : Nat) : Para :=
  ⟨q.children.filterMap
    (fun pc =>
      match pc with
      | .commentRangeStart j => if j = cid then none else some pc
      | .commentRangeEnd j => if j = cid then none else some pc
      | .run r => some (.run (runRemoveRefs r cid))
      | .pPr s => some (.pPr s))⟩

/-- `XMLFormattingMixin.remove_comment_references_from_document` (views.py
lines 231-265): remove every `commentRangeStart`, `commentRangeEnd` and
`commentReference` element whose `w:id` equals `comment_id`, each from its
actual parent (paragraph or run) via the precomputed parent map. -/
def removeCommentReferences (body : List BodyChild) (cid : Nat) :
    List BodyChild :=
  body.map
    (fun c =>
      match c with
      | .p q => .p (paraRemoveAnchors q cid)
      | .other t => .other t)

/-- `delete_comment_from_docx`, comments.xml step (views.py lines 190-208):
remove the first `w:comment` whose `w:id` matches (the loop `break`s after
the first hit). -/
def removeFirstComment : List CommentEntry → Nat → List CommentEntry
  | [], _ => []
  | e :: rest, cid => if e.id = cid then rest else e :: removeFirstComment rest cid

/-- A comment operation against one package. -/
inductive CommentOp where
  | add (pid cid : Nat) (author text : String)
  | del (cid : Nat)
deriving DecidableEq, Repr

/-- `AddCommentView.add_comment_to_docx` (views.py lines 1209-1279) on the
claim-relevant parts: append a `w:comment` entry to `comments.xml` (creating
the part when absent) and insert the anchor triad into `document.xml`.
`DeleteCommentView` / `delete_comment_from_docx` (views.py lines 172-229):
remove the entry from `comments.xml` (when the part exists) and remove every
anchor element with that id from `document.xml`. -/
def applyCommentOp (s : DocxState) : CommentOp → DocxState
  | .add pid cid author text =>
      { body := addCommentReferenceToDocument s.body pid cid
        comments := some ((s.comments.getD []) ++ [⟨cid, author, [text]⟩]) }
  | .del cid =>
      { body := removeCommentReferences s.body cid
        comments := s.comments.map (fun l => removeFirstComment l cid) }

def applyCommentOps (s : DocxState) (ops : List CommentOp) : DocxState :=
  ops.foldl applyCommentOp s

/-! ### Anchor and entry counts, and the anchor-triad invariant -/

def paraStartCount (q : Para) (cid : Nat) : Nat :=
  q.children.countP
    (fun c =>
      match c with
      | .commentRangeStart j => j = cid
      | _ => false)

def paraEndCount (q : Para) (cid : Nat) : Nat :=
  q.children.countP
    (fun c =>
      match c with
      | .commentRangeEnd j => j = cid
      | _ => false)

def runRefCount (r : Run) (cid : Nat) : Nat :=
  r.children.countP
    (fun c =>
      match c with
      | .commentReference j => j = cid
      | _ => false)

def paraRefCount (q : Para) (cid : Nat) : Nat :=
  (q.children.map
    (fun c =>
      match c with
      | .run r => runRefCount r cid
      | _ => 0)).sum

def startCount (body : List BodyChild) (cid : Nat) : Nat :=
  ((parasOf body).map (fun q => paraStartCount q cid)).sum

def endCount (body : List BodyChild) (cid : Nat) : Nat :=
  ((parasOf body).map (fun q => paraEndCount q cid)).sum

def refCount (body : List BodyChild) (cid : Nat) : Nat :=
  ((parasOf body).map (fun q => paraRefCount q cid)).sum

def entryCount (cm : Option (List CommentEntry)) (cid : Nat) : Nat :=
  (cm.getD []).countP (fun e => e.id = cid)

/-- The comment-anchor invariant of the claim: comment ids are unique in
`comments.xml`; an id present there has exactly one `commentRangeStart`, one
`commentRangeEnd` and one `commentReference` in `document.xml`; an id absent
from `comments.xml` has no anchor at all (so no anchor id is orphaned). -/
def anchorInvariant (s : DocxState) : Prop :=
  ∀ cid : Nat,
    entryCount s.comments cid ≤ 1 ∧
    (entryCount s.comments cid = 1 →
      startCount s.body cid = 1 ∧ endCount s.body cid = 1 ∧
        refCount s.body cid = 1) ∧
    (entryCount s.comments cid = 0 →
      startCount s.body cid = 0 ∧ endCount s.body cid = 0 ∧
        refCount s.body cid = 0)

/-- Does the anchor insertion of `add_comment_reference_to_document` actually
apply: the target paragraph number resolves under the view-side scan and the
paragraph contains a run. -/
def anchorApplies (body : List BodyChild) (pid : Nat) : Bool :=
  match scanForParagraph body pid with
  | none => false
  | some i =>
      match body[i]? with
      | some (.p q) => paraHasRun q
      | _ => false

/-- Validity of one operation in the amended claim: an add uses a fresh
comment id (the view picks `max existing id + 1`) and targets a paragraph
number at which the anchor insertion applies; a delete is unrestricted. -/
def commentOpValid (s : DocxState) : CommentOp → Prop
  | .add pid cid _ _ => entryCount s.comments cid = 0 ∧ anchorApplies s.body pid = true
  | .del _ => True

def commentOpsValid : DocxState → List CommentOp → Prop
  | _, [] => True
  | s, op :: rest => commentOpValid s op ∧ commentOpsValid (applyCommentOp s op) rest

/-! ## Upload-time comment extraction
(`UploadDocumentView.extract_comments_from_docx` /
`find_comment_paragraph_id`, views.py lines 271-344) -/

/-- Does a paragraph contain a `commentReference` or a `commentRangeStart`
with this id (the `comment_refs or comment_starts` test of views.py lines
335-338)? -/
def paraHasAnchor (q : Para) (cid : Nat) : Bool :=
  0 < paraRefCount q cid || 0 < paraStartCount q cid

/-- `find_comment_paragraph_id` (views.py lines 319-344): walk all
paragraphs; count the non-blank ones; the anchor test runs only for counted
paragraphs; return the counter at the first hit, and `1` when the loop ends
without a hit. -/
def findCommentParagraphIdGo : List Para → Nat → Nat → Nat
  | [], _, _ => 1
  | q :: rest, cnt, cid =>
      if paraNonBlank q then
        if paraHasAnchor q cid then cnt + 1
        else findCommentParagraphIdGo rest (cnt + 1) cid
      else findCommentParagraphIdGo rest cnt cid

def findCommentParagraphId (body : List BodyChild) (cid : Nat) : Nat :=
  findCommentParagraphIdGo (parasOf body) 0 cid

/-- `comment_text` as built at views.py lines 292-301: for each body
paragraph of the comment whose text has truthy `strip()`, append the text
plus a newline; finally `strip()` the whole. -/
def commentBodyText (paragraphTexts : List String) : List Char :=
  stripChars
    (((paragraphTexts.filter (fun t => !(isBlankChars t.data))).map
      (fun t => t.data ++ [Char.ofNat 10])).flatten)

/-- One record of `comments_data`. -/
structure ExtractedComment where
  commentId : Nat
  author : String
  text : List Char
  paragraphId : Nat
deriving DecidableEq, Repr

/-- `extract_comments_from_docx` (views.py lines 271-317): nothing when the
package has no `word/comments.xml`; otherwise one record per comment whose
built body text is non-empty (`if comment_text:`), carrying the paragraph id
resolved by `find_comment_paragraph_id`; comments with empty built text are
skipped. -/
def extractCommentsFromDocx (s : DocxState) : List ExtractedComment :=
  match s.comments with
  | none => []
  | some entries =>
      entries.filterMap
        (fun e =>
          let text := commentBodyText e.paragraphTexts
          if text = [] then none
          else some ⟨e.id, e.author, text, findCommentParagraphId s.body e.id⟩)

/-! ## Archive repacking at part granularity
(`XMLFormattingMixin._recreate_docx_with_proper_xml_formatting`, views.py
lines 114-170) -/

/-- One file of the extracted scratch directory / one entry of the archive:
its forward-slash archive name and its bytes. -/
structure RawPart where
  name : String
  data : List Nat
deriving DecidableEq, Repr

/-- The `file.endswith('.xml')` test of views.py line 125, implemented over
the character list so that it evaluates by kernel reduction. -/
def isXmlName (n : String) : Bool :=
  decide (n.data.reverse.take ((".xml").data.length) = (".xml").data.reverse)

/-- `_recreate_docx_with_proper_xml_formatting`, success path: every file
whose name ends in `.xml` may be rewritten by the formatting pass
(`_format_xml_file`, or kept as-is by the already-formatted heuristic —
abstracted by the function `fmt`); every other file is left untouched; then
every file, formatted or not, is written into the fresh archive. -/
def recreateDocxParts (fmt : String → List Nat → List Nat)
    (parts : List RawPart) : List RawPart :=
  parts.map
    (fun p => if isXmlName p.name then ⟨p.name, fmt p.name p.data⟩ else p)

/-! ## The transactional envelope with failure injection
(backup/extract/mutate/repack/cleanup; views.py lines 1068-1149 for
`delete_paragraph_from_docx` — the other mutators share the same shape) -/

/-- A point at which an injected exception interrupts the mutation. -/
inductive FailPoint where
  /-- `zipfile.ZipFile(...).extractall` raises -/
  | extract
  /-- `ET.parse` / the tree mutation / `tree.write` raises -/
  | mutateTree
  /-- the per-file formatting loop inside
  `_recreate_docx_with_proper_xml_formatting` raises (before the archive is
  reopened for writing) -/
  | formatPhase
  /-- writing the fresh ZIP raises after `zipfile.ZipFile(file_path, 'w')`
  has truncated the archive (e.g. the disk fills mid-write) -/
  | zipWrite
deriving DecidableEq, Repr

/-- Contents of the archive file on disk, relative to one mutation. -/
inductive DiskArchive where
  | original
  | mutated
  | truncated
deriving DecidableEq, Repr

/-- Outcome of one enveloped mutation. -/
structure EnvelopeResult where
  disk : DiskArchive
  backupRemains : Bool
  raised : Bool
deriving DecidableEq, Repr

/-- `_recreate_docx_with_proper_xml_formatting` (views.py lines 114-170):
the whole body sits in a `try` whose `except` returns `False`, so an
exception in the formatting loop leaves the archive untouched and an
exception after `zipfile.ZipFile(file_path, 'w')` opened (truncated) the
archive leaves it half-written; only a completed write yields the mutated
archive.  Returns the new disk state and the boolean result. -/
def recreateDocxDisk (failAt : Option FailPoint) (disk : DiskArchive) :
    DiskArchive × Bool :=
  if failAt = some .formatPhase then (disk, false)
  else if failAt = some .zipWrite then (.truncated, false)
  else (.mutated, true)

/-- The steps between taking the backup and the cleanup, as run inside the
mutator's `try`: extract, parse-and-mutate (both raise on injected failure),
then `_recreate_docx_with_proper_xml_formatting`, whose boolean result the
caller ignores (views.py line 1134). -/
def envelopeBody (failAt : Option FailPoint) : Except Unit DiskArchive := do
  if failAt = some .extract then throw ()
  if failAt = some .mutateTree then throw ()
  pure (recreateDocxDisk failAt .original).1

/-- The full backup/restore envelope (views.py lines 1072-1149): copy the
archive to `.backup`; run the body; on success remove scratch and backup and
return; on a propagated exception copy the backup back over the archive,
remove it, and re-raise. -/
def runEnvelope (failAt : Option FailPoint) : EnvelopeResult :=
  match envelopeBody failAt with
  | .ok disk => ⟨disk, false, false⟩
  | .error _ => ⟨.original, false, true⟩

end DocxSurgery

namespace DocxSurgery

/-! ## Small concrete documents used in counterexamples and witnesses -/

/-- A paragraph holding one run with one text node. -/
def tPara (s : String) : Para := ⟨[.run ⟨[.t ⟨s, false⟩]⟩]⟩

/-- A paragraph holding one run with one resolved drawing and no text. -/
def imgPara : Para := ⟨[.run ⟨[.drawing true]⟩]⟩

/-- Is a body child a paragraph? -/
def isParaB : BodyChild → Bool
  | .p _ => true
  | .other _ => false

end DocxSurgery

namespace DocxSurgery

/-! ## Definitions used to state claims -/

/-- Number of paragraphs the upload parser numbers (equals the number of
`Paragraph` rows the metadata store holds right after an upload, since
`_parse_paragraphs` creates one row per counted paragraph). -/
def parserNumberedCount (body : List BodyChild) : Nat :=
  (parasOf body).countP parserCountsPara

/-- Index (among `ps`) of the `n`-th paragraph satisfying the view-side
numbering predicate (1-based `n`); used to state where an insertion lands. -/
def nthNumberedIdx : List Para → Nat → Option Nat
  | [], _ => none
  | q :: rest, n =>
      if paraNonBlank q then
        if n = 1 then some 0 else (nthNumberedIdx rest (n - 1)).map (· + 1)
      else (nthNumberedIdx rest n).map (· + 1)

/-- The enumeration of a document: the texts of its view-numbered paragraphs
in order (derived number = 1-based position in this list). -/
def viewsEnumTexts (body : List BodyChild) : List (List Char) :=
  ((parasOf body).filter paraNonBlank).map viewsParaText

/-- The runs of a paragraph in document order (`para.findall('.//w:r')`). -/
def runsOf (q : Para) : List Run :=
  q.children.filterMap
    (fun c =>
      match c with
      | .run r => some r
      | _ => none)

/-- The `w:t` nodes of one run (`run.findall('.//w:t')`). -/
def runTNodes (r : Run) : List TextNode :=
  r.children.filterMap
    (fun rc =>
      match rc with
      | .t node => some node
      | _ => none)

/-- The `w:rPr` formatting contents of one run. -/
def runFmts (r : Run) : List (List String) :=
  r.children.filterMap
    (fun rc =>
      match rc with
      | .rPr fmts => some fmts
      | _ => none)

/-- The formatting contents of the runs of a paragraph, run by run. -/
def paraRunFmts (q : Para) : List (List (List String)) :=
  (runsOf q).map runFmts

end DocxSurgery

namespace DocxSurgery

/-! # Helper lemmas -/

@[simp] theorem parasOf_nil : parasOf [] = [] := rfl

@[simp] theorem parasOf_cons_p (q : Para) (l : List BodyChild) :
    parasOf (.p q :: l) = q :: parasOf l := rfl

@[simp] theorem parasOf_cons_other (t : String) (l : List BodyChild) :
    parasOf (.other t :: l) = parasOf l := rfl

theorem parasOf_append (l1 l2 : List BodyChild) :
    parasOf (l1 ++ l2) = parasOf l1 ++ parasOf l2 :=
  List.filterMap_append ..

@[simp] theorem parasOf_map_p (ps : List Para) :
    parasOf (ps.map BodyChild.p) = ps := by
  induction ps with
  | nil => rfl
  | cons q rest ih => simpa using ih

theorem parasOf_eq_nil_of_noParas (os : List BodyChild)
    (h : ∀ c ∈ os, isParaB c = false) : parasOf os = [] := by
  induction os with
  | nil => rfl
  | cons c rest ih =>
      cases c with
      | p q =>
          have hq := h (.p q) (by simp)
          simp [isParaB] at hq
      | other t =>
          rw [parasOf_cons_other]
          exact ih (fun c hc => h c (List.mem_cons_of_mem _ hc))

@[simp] theorem countNumbered_nil : countNumbered [] = 0 := rfl

theorem countNumbered_cons (q : Para) (l : List Para) :
    countNumbered (q :: l) = countNumbered l + (if paraNonBlank q then 1 else 0) := by
  simp [countNumbered, List.countP_cons]

@[simp] theorem countNumberedB_nil : countNumberedB [] = 0 := rfl

theorem countNumberedB_cons_p (q : Para) (l : List BodyChild) :
    countNumberedB (.p q :: l) =
      countNumberedB l + (if paraNonBlank q then 1 else 0) := by
  simp [countNumberedB, countNumbered, List.countP_cons]

@[simp] theorem countNumberedB_cons_other (t : String) (l : List BodyChild) :
    countNumberedB (.other t :: l) = countNumberedB l := rfl

@[simp] theorem insertAt_zero (l : List BodyChild) (a : BodyChild) :
    insertAt l 0 a = a :: l := by
  cases l <;> rfl

@[simp] theorem insertAt_cons_succ (b : BodyChild) (l : List BodyChild)
    (n : Nat) (a : BodyChild) : insertAt (b :: l) (n + 1) a = b :: insertAt l n a := rfl

theorem eraseIdx_insertAt (l : List BodyChild) (n : Nat) (a : BodyChild)
    (h : n ≤ l.length) : (insertAt l n a).eraseIdx n = l := by
  induction l generalizing n with
  | nil =>
      have : n = 0 := by simpa using h
      subst this
      rfl
  | cons b rest ih =>
      cases n with
      | zero => rfl
      | succ m =>
          simp only [insertAt_cons_succ, List.eraseIdx]
          exact congrArg (b :: ·) (ih m (by simpa using h))

/-- Decomposition produced by a successful paragraph-locating scan: the
found index cuts the body into a prefix holding exactly `pid - cnt - 1`
numbered paragraphs and the located non-blank paragraph. -/
theorem scanGo_eq_some :
    ∀ (body : List BodyChild) (cnt pid i : Nat),
      scanGo body cnt pid = some i →
      ∃ A q B, body = A ++ .p q :: B ∧ A.length = i ∧
        paraNonBlank q = true ∧ cnt + countNumberedB A + 1 = pid := by
  intro body
  induction body with
  | nil => intro cnt pid i h; simp [scanGo] at h
  | cons c rest ih =>
      intro cnt pid i h
      cases c with
      | p q =>
          by_cases hq : paraNonBlank q
          · by_cases hc : cnt + 1 = pid
            · rw [scanGo, if_pos hq, if_pos hc] at h
              obtain rfl : (0 : Nat) = i := Option.some.inj h
              exact ⟨[], q, rest, by simp, rfl, hq, by simpa using hc⟩
            · rw [scanGo, if_pos hq, if_neg hc, Option.map_eq_some'] at h
              obtain ⟨j, hj, hij⟩ := h
              obtain ⟨A, q2, B, hb, hl, hnb, hcnt⟩ := ih (cnt + 1) pid j hj
              refine ⟨.p q :: A, q2, B, by simp [hb], by simp [hl, ← hij], hnb, ?_⟩
              rw [countNumberedB_cons_p, if_pos hq]
              omega
          · rw [scanGo, if_neg hq, Option.map_eq_some'] at h
            obtain ⟨j, hj, hij⟩ := h
            obtain ⟨A, q2, B, hb, hl, hnb, hcnt⟩ := ih cnt pid j hj
            refine ⟨.p q :: A, q2, B, by simp [hb], by simp [hl, ← hij], hnb, ?_⟩
            rw [countNumberedB_cons_p, if_neg hq]
            omega
      | other t =>
          rw [scanGo, Option.map_eq_some'] at h
          obtain ⟨j, hj, hij⟩ := h
          obtain ⟨A, q2, B, hb, hl, hnb, hcnt⟩ := ih cnt pid j hj
          exact ⟨.other t :: A, q2, B, by simp [hb], by simp [hl, ← hij], hnb, by simpa using hcnt⟩

end DocxSurgery

namespace DocxSurgery

/-! # Claim theorems -/

/-- C1: the crash-safety claim is right and the code violates it.  An
exception raised while the fresh ZIP is being written (after
`zipfile.ZipFile(file_path, 'w')` truncated the archive) is caught inside
`_recreate_docx_with_proper_xml_formatting`, which returns `False`; every
caller ignores that result, deletes the backup and reports success, leaving
the half-written archive on disk.  By contrast, failures during extract or
tree mutation do propagate and the backup is restored.  This theorem
evaluates the embedded envelope at the failing input. -/
theorem C1_repack_failure_leaves_truncated_archive :
    runEnvelope (some FailPoint.zipWrite) =
      ⟨DiskArchive.truncated, false, false⟩ ∧
    DiskArchive.truncated ≠ DiskArchive.original ∧
    runEnvelope (some FailPoint.extract) =
      ⟨DiskArchive.original, false, true⟩ ∧
    runEnvelope (some FailPoint.mutateTree) =
      ⟨DiskArchive.original, false, true⟩ := by
  decide

/-- C9: every part of the extracted package whose archive name does not end
in `.xml` — media, fonts, every binary part — is carried into the repacked
archive byte-identically, whatever the XML formatting pass does, and the
repacked archive holds exactly the original entry names. -/
theorem C9_non_xml_parts_preserved
    (fmt : String → List Nat → List Nat) (parts : List RawPart)
    (part : RawPart) (hmem : part ∈ parts)
    (hx : isXmlName part.name = false) :
    part ∈ recreateDocxParts fmt parts ∧
    (recreateDocxParts fmt parts).map RawPart.name = parts.map RawPart.name := by
  refine ⟨?_, ?_⟩
  · have h2 : (if isXmlName part.name then
        (⟨part.name, fmt part.name part.data⟩ : RawPart) else part) = part := by
      simp [hx]
    rw [recreateDocxParts, List.mem_map]
    exact ⟨part, hmem, h2⟩
  · rw [recreateDocxParts, List.map_map]
    refine List.map_congr_left ?_
    intro p _
    by_cases hp : isXmlName p.name <;> simp [hp]

/-- Witness for C9 at a concrete package and formatting function. -/
theorem C9_non_xml_parts_preserved_witness :
    ((⟨("word/media/image1.png"), [137, 80, 78, 71]⟩ : RawPart) ∈
        ([⟨("word/document.xml"), [60, 63]⟩,
          ⟨("word/media/image1.png"), [137, 80, 78, 71]⟩] : List RawPart)) ∧
    isXmlName ("word/media/image1.png") = false ∧
    ((⟨("word/media/image1.png"), [137, 80, 78, 71]⟩ : RawPart) ∈
      recreateDocxParts (fun _ d => 10 :: d)
        [⟨("word/document.xml"), [60, 63]⟩,
         ⟨("word/media/image1.png"), [137, 80, 78, 71]⟩]) :=
  ⟨by decide, by decide,
    (C9_non_xml_parts_preserved (fun _ d => 10 :: d) _ _ (by decide) (by decide)).1⟩

/-- C6: when the metadata store holds exactly one paragraph record — which is
the situation for a document with exactly one parser-numbered paragraph,
since upload creates one record per numbered paragraph — a delete request for
that paragraph is refused with the last-paragraph error before the archive is
touched, so the on-disk document is returned unchanged. -/
theorem C6_last_paragraph_delete_rejected
    (body : List BodyChild) (dbIds : List Nat) (pid : Nat)
    (hcount : parserNumberedCount body = 1)
    (hdb : dbIds.length = parserNumberedCount body)
    (hpid : pid ∈ dbIds) :
    deleteParagraphEndpoint dbIds body pid =
      (some ("Cannot delete the last paragraph"), body) := by
  rw [deleteParagraphEndpoint, if_pos hpid, if_pos (by omega)]

/-- Witness for C6: a one-paragraph document. -/
theorem C6_last_paragraph_delete_rejected_witness :
    parserNumberedCount [BodyChild.p (tPara ("Intro"))] = 1 ∧
    deleteParagraphEndpoint [1] [BodyChild.p (tPara ("Intro"))] 1 =
      (some ("Cannot delete the last paragraph"),
        [BodyChild.p (tPara ("Intro"))]) :=
  ⟨by decide,
    C6_last_paragraph_delete_rejected _ [1] 1 (by decide) (by decide) (by decide)⟩

end DocxSurgery

namespace DocxSurgery

/-- Relates the insertion-index loop of `add_paragraph_to_docx` to the
position of the `t`-th numbered paragraph: as long as the running count
`cnt` is still below the target `t` and enough numbered paragraphs remain,
the loop stops one past the index of the `t`-th numbered paragraph
(counting from `cnt`). -/
theorem insertScan_eq_nthNumberedIdx :
    ∀ (ps : List Para) (cnt t : Nat), cnt < t → t ≤ cnt + countNumbered ps →
      ∃ j, nthNumberedIdx ps (t - cnt) = some j ∧
        insertScan t ps cnt = some (j + 1) ∧ j < ps.length := by
  intro ps
  induction ps with
  | nil =>
      intro cnt t h1 h2
      rw [countNumbered_nil] at h2
      omega
  | cons q rest ih =>
      intro cnt t h1 h2
      rw [countNumbered_cons] at h2
      by_cases hq : paraNonBlank q
      · rw [if_pos hq] at h2
        by_cases hc : cnt + 1 = t
        · refine ⟨0, ?_, ?_, by simp⟩
          · rw [nthNumberedIdx, if_pos hq, if_pos (by omega)]
          · rw [insertScan]
            simp only [hq, if_true, hc, if_pos rfl]
        · obtain ⟨j, hnth, hins, hlt⟩ := ih (cnt + 1) t (by omega) (by omega)
          refine ⟨j + 1, ?_, ?_, by simpa using hlt⟩
          · rw [nthNumberedIdx, if_pos hq, if_neg (by omega : ¬t - cnt = 1)]
            have heq : t - cnt - 1 = t - (cnt + 1) := by omega
            rw [heq, hnth]
            rfl
          · rw [insertScan]
            simp [hq, hc, hins]
      · have hq2 : paraNonBlank q = false := by simpa using hq
        rw [if_neg hq] at h2
        obtain ⟨j, hnth, hins, hlt⟩ := ih cnt t h1 (by omega)
        refine ⟨j + 1, ?_, ?_, by simpa using hlt⟩
        · rw [nthNumberedIdx, if_neg hq, hnth]
          rfl
        · have hne : ¬cnt = t := by omega
          rw [insertScan]
          simp [hq2, hins, hne]

/-- A successful `nthNumberedIdx` lookup lands on a numbered paragraph. -/
theorem nthNumberedIdx_mem :
    ∀ (ps : List Para) (n j : Nat), nthNumberedIdx ps n = some j →
      ∃ q, ps[j]? = some q ∧ paraNonBlank q = true := by
  intro ps
  induction ps with
  | nil => intro n j h; simp [nthNumberedIdx] at h
  | cons q rest ih =>
      intro n j h
      by_cases hq : paraNonBlank q
      · by_cases hn : n = 1
        · rw [nthNumberedIdx, if_pos hq, if_pos hn] at h
          obtain rfl : (0 : Nat) = j := Option.some.inj h
          exact ⟨q, by simp, hq⟩
        · rw [nthNumberedIdx, if_pos hq, if_neg hn, Option.map_eq_some'] at h
          obtain ⟨j2, hj2, rfl⟩ := h
          obtain ⟨q2, hq2, hnb⟩ := ih _ _ hj2
          exact ⟨q2, by simpa using hq2, hnb⟩
      · rw [nthNumberedIdx, if_neg hq, Option.map_eq_some'] at h
        obtain ⟨j2, hj2, rfl⟩ := h
        obtain ⟨q2, hq2, hnb⟩ := ih _ _ hj2
        exact ⟨q2, by simpa using hq2, hnb⟩

/-- C4, counterexample: on the two-paragraph body `["A", "B"]` an insert at
position 1 appends the new paragraph at the end of the body instead of
placing it at the beginning, because the loop at views.py lines 951-963
compares the count only after incrementing it and so never observes the value
0 once the first paragraph is non-blank. -/
theorem C4_position_one_appends_at_end :
    addParagraphToDocx [.p (tPara ("A")), .p (tPara ("B"))] ("T") (some 1) =
      [.p (tPara ("A")), .p (tPara ("B")), .p (mkNewPara ("T"))] ∧
    ([.p (tPara ("A")), .p (tPara ("B")), .p (mkNewPara ("T"))] :
        List BodyChild) ≠
      [.p (mkNewPara ("T")), .p (tPara ("A")), .p (tPara ("B"))] := by
  decide

/-- C4, amended: for `position ≥ 2` (with at least `position - 1` numbered
paragraphs, and the body laid out as its paragraphs followed by non-paragraph
children, as in a real `document.xml`) the new paragraph is inserted
immediately after the `(position - 1)`-th numbered paragraph, i.e. at the
body index one past it; with no position the new paragraph is appended at the
end of the body.  (For `position = 1` with a non-blank first paragraph the
code appends at the end instead — see the counterexample.) -/
theorem C4_insert_after_previous_numbered
    (ps : List Para) (os : List BodyChild)
    (hos : ∀ c ∈ os, isParaB c = false) (text : String) (pos : Nat)
    (h2 : 2 ≤ pos) (hle : pos - 1 ≤ countNumbered ps) :
    (∃ j q, nthNumberedIdx ps (pos - 1) = some j ∧
      ps[j]? = some q ∧ paraNonBlank q = true ∧
      addParagraphToDocx (ps.map BodyChild.p ++ os) text (some pos) =
        insertAt (ps.map BodyChild.p ++ os) (j + 1) (.p (mkNewPara text))) ∧
    addParagraphToDocx (ps.map BodyChild.p ++ os) text none =
      (ps.map BodyChild.p ++ os) ++ [.p (mkNewPara text)] := by
  constructor
  · obtain ⟨j, hnth, hins, hlt⟩ :=
      insertScan_eq_nthNumberedIdx ps 0 (pos - 1) (by omega) (by omega)
    have hps : parasOf (ps.map BodyChild.p ++ os) = ps := by
      rw [parasOf_append, parasOf_map_p, parasOf_eq_nil_of_noParas os hos,
        List.append_nil]
    obtain ⟨q, hq, hnb⟩ := nthNumberedIdx_mem ps (pos - 1) j hnth
    refine ⟨j, q, by simpa using hnth, hq, hnb, ?_⟩
    rw [addParagraphToDocx]
    simp only [if_pos (by omega : 0 < pos), hps, hins, Option.getD_some]
  · rfl

end DocxSurgery

namespace DocxSurgery

/-- Witness for C4 at a concrete document (paragraphs `["A", "B"]` followed
by a `sectPr`), inserting at position 2. -/
theorem C4_insert_after_previous_numbered_witness :
    (∀ c ∈ ([.other ("sectPr")] : List BodyChild), isParaB c = false) ∧
    2 - 1 ≤ countNumbered [tPara ("A"), tPara ("B")] ∧
    ((∃ j q, nthNumberedIdx [tPara ("A"), tPara ("B")] (2 - 1) = some j ∧
      ([tPara ("A"), tPara ("B")])[j]? = some q ∧ paraNonBlank q = true ∧
      addParagraphToDocx
          ([tPara ("A"), tPara ("B")].map BodyChild.p ++ [.other ("sectPr")])
          ("X") (some 2) =
        insertAt
          ([tPara ("A"), tPara ("B")].map BodyChild.p ++ [.other ("sectPr")])
          (j + 1) (.p (mkNewPara ("X")))) ∧
    addParagraphToDocx
        ([tPara ("A"), tPara ("B")].map BodyChild.p ++ [.other ("sectPr")])
        ("X") none =
      ([tPara ("A"), tPara ("B")].map BodyChild.p ++ [.other ("sectPr")]) ++
        [.p (mkNewPara ("X"))]) :=
  ⟨by decide, by decide,
    C4_insert_after_previous_numbered [tPara ("A"), tPara ("B")]
      [.other ("sectPr")] (by decide) ("X") 2 (by decide) (by decide)⟩

/-- The heart of the insert/delete round trip: under the preconditions of
the amended C5 claim the insertion loop picks an index `i` within the
paragraph prefix of the body, and the delete scan of the body with the new
(numbered) paragraph inserted at `i` locates exactly index `i`. -/
theorem insert_delete_scan (newP : Para) (hn : paraNonBlank newP = true)
    (os : List BodyChild) :
    ∀ (ps : List Para) (cnt t : Nat), cnt < t → t ≤ cnt + countNumbered ps →
      ∃ i, insertScan t ps cnt = some i ∧ i ≤ ps.length ∧
        scanGo (insertAt (ps.map BodyChild.p ++ os) i (.p newP)) cnt (t + 1) =
          some i := by
  intro newP_ps
  induction newP_ps with
  | nil =>
      intro cnt t h1 h2
      rw [countNumbered_nil] at h2
      omega
  | cons q rest ih =>
      intro cnt t h1 h2
      rw [countNumbered_cons] at h2
      cases hq : paraNonBlank q with
      | true =>
          rw [hq, if_pos rfl] at h2
          by_cases hc : cnt + 1 = t
          · refine ⟨1, ?_, by simp, ?_⟩
            · rw [insertScan]
              simp [hq, hc]
            · rw [List.map_cons, List.cons_append, insertAt_cons_succ,
                insertAt_zero, scanGo, if_pos hq,
                if_neg (by omega : ¬cnt + 1 = t + 1), scanGo, if_pos hn,
                if_pos (by omega : cnt + 1 + 1 = t + 1)]
              rfl
          · obtain ⟨i, hins, hle, hscan⟩ := ih (cnt + 1) t (by omega) (by omega)
            refine ⟨i + 1, ?_, by simpa using hle, ?_⟩
            · rw [insertScan]
              simp [hq, hc, hins]
            · rw [List.map_cons, List.cons_append, insertAt_cons_succ, scanGo,
                if_pos hq, if_neg (by omega : ¬cnt + 1 = t + 1), hscan]
              rfl
      | false =>
          rw [hq, if_neg (by simp)] at h2
          obtain ⟨i, hins, hle, hscan⟩ := ih cnt t h1 (by omega)
          refine ⟨i + 1, ?_, by simpa using hle, ?_⟩
          · have hne : ¬cnt = t := by omega
            rw [insertScan]
            simp [hq, hne, hins]
          · rw [List.map_cons, List.cons_append, insertAt_cons_succ, scanGo,
              if_neg (by simp [hq]), hscan]
            rfl

end DocxSurgery

namespace DocxSurgery

/-- The paragraph built for a non-blank insertion text is numbered. -/
theorem paraNonBlank_mkNewPara (T : String)
    (hT : isBlankChars T.data = false) :
    paraNonBlank (mkNewPara T) = true := by
  rw [mkNewPara, hT]
  simp [paraNonBlank, viewsParaText, paraTextNodes, concatTexts, hT]

/-- C5, counterexample: on the document `["A", "B"]`, inserting `"T"` at
position 1 and then deleting the paragraph now numbered 1 yields the
enumeration `["B", "T"]`, not the original `["A", "B"]` — the insert
appended `"T"` at the end (see C4), so the delete removed the original
first paragraph. -/
theorem C5_roundtrip_fails_at_position_one :
    (deleteParagraphFromDocx
        (addParagraphToDocx [.p (tPara ("A")), .p (tPara ("B"))]
          ("T") (some 1)) 1).toOption.map viewsEnumTexts =
      some [("B").data, ("T").data] ∧
    viewsEnumTexts [.p (tPara ("A")), .p (tPara ("B"))] =
      [("A").data, ("B").data] ∧
    (some [("B").data, ("T").data] : Option (List (List Char))) ≠
      some [("A").data, ("B").data] := by
  refine ⟨rfl, rfl, by decide⟩

/-- C5, amended: for a body laid out as its paragraphs followed by
non-paragraph children, a non-blank insertion text `T`, and a position `k`
with `2 ≤ k ≤ (number of numbered paragraphs) + 1`, inserting at `k` and
then deleting the paragraph now numbered `k` restores the body exactly —
in particular the enumeration (texts, count, order).  (For `k = 1` the claim
fails, see the counterexample; for blank `T` the inserted paragraph is
written as a single space and receives no number, so the delete would remove
an original paragraph.) -/
theorem C5_insert_then_delete_restores_enumeration
    (ps : List Para) (os : List BodyChild)
    (hos : ∀ c ∈ os, isParaB c = false) (k : Nat) (T : String)
    (hT : isBlankChars T.data = false) (hk : 2 ≤ k)
    (hkle : k ≤ countNumbered ps + 1) :
    deleteParagraphFromDocx
        (addParagraphToDocx (ps.map BodyChild.p ++ os) T (some k)) k =
      Except.ok (ps.map BodyChild.p ++ os) := by
  have hps : parasOf (ps.map BodyChild.p ++ os) = ps := by
    rw [parasOf_append, parasOf_map_p, parasOf_eq_nil_of_noParas os hos,
      List.append_nil]
  have hn := paraNonBlank_mkNewPara T hT
  obtain ⟨i, hins, hle, hscan⟩ :=
    insert_delete_scan (mkNewPara T) hn os ps 0 (k - 1) (by omega) (by omega)
  have hadd : addParagraphToDocx (ps.map BodyChild.p ++ os) T (some k) =
      insertAt (ps.map BodyChild.p ++ os) i (.p (mkNewPara T)) := by
    rw [addParagraphToDocx]
    simp only [if_pos (by omega : 0 < k), hps, hins, Option.getD_some]
  have hk1 : k - 1 + 1 = k := by omega
  have hscan2 : scanForParagraph
      (insertAt (ps.map BodyChild.p ++ os) i (.p (mkNewPara T))) k = some i := by
    rw [scanForParagraph, ← hk1]
    simpa using hscan
  rw [hadd, deleteParagraphFromDocx, hscan2]
  exact congrArg Except.ok (eraseIdx_insertAt _ _ _ (le_trans hle (by simp)))

/-- Witness for C5: document `["A", "B"]`, insert `"X"` at position 2,
delete paragraph 2. -/
theorem C5_insert_then_delete_restores_enumeration_witness :
    (∀ c ∈ ([] : List BodyChild), isParaB c = false) ∧
    isBlankChars ("X").data = false ∧
    2 ≤ countNumbered [tPara ("A"), tPara ("B")] + 1 ∧
    deleteParagraphFromDocx
        (addParagraphToDocx
          ([tPara ("A"), tPara ("B")].map BodyChild.p ++ []) ("X") (some 2)) 2 =
      Except.ok ([tPara ("A"), tPara ("B")].map BodyChild.p ++ []) :=
  ⟨by decide, by decide, by decide,
    C5_insert_then_delete_restores_enumeration [tPara ("A"), tPara ("B")] []
      (by decide) 2 ("X") (by decide) (by decide) (by decide)⟩

end DocxSurgery

namespace DocxSurgery

theorem isBlankChars_append (l1 l2 : List Char) :
    isBlankChars (l1 ++ l2) = (isBlankChars l1 && isBlankChars l2) := by
  simp [isBlankChars, List.all_append]

theorem isBlankChars_imageMarks (n : Nat) :
    isBlankChars ((List.replicate n imageMark).flatten) = decide (n = 0) := by
  induction n with
  | zero => rfl
  | succ m ih =>
      rw [List.replicate_succ, List.flatten_cons, isBlankChars_append]
      simp [isBlankChars, imageMark]

theorem isBlankChars_parserRunText (r : Run) :
    isBlankChars (parserRunText r) =
      (isBlankChars (runTextChars r) && decide (runResolvedDrawings r = 0)) := by
  rw [parserRunText, isBlankChars_append, isBlankChars_imageMarks]

theorem concatTexts_append (l1 l2 : List TextNode) :
    concatTexts (l1 ++ l2) = concatTexts l1 ++ concatTexts l2 := by
  induction l1 with
  | nil => rfl
  | cons n rest ih =>
      show n.text.data ++ concatTexts (rest ++ l2) =
        (n.text.data ++ concatTexts rest) ++ concatTexts l2
      rw [ih, List.append_assoc]

theorem runTextChars_eq_concatTexts (r : Run) :
    runTextChars r = concatTexts (r.children.filterMap
      (fun rc =>
        match rc with
        | .t n => some n
        | _ => none)) := by
  obtain ⟨cs⟩ := r
  induction cs with
  | nil => rfl
  | cons c rest ih =>
      cases c with
      | t n =>
          show n.text.data ++ runTextChars ⟨rest⟩ = _
          rw [ih, List.filterMap_cons]
          rfl
      | drawing b => simpa [List.filterMap_cons] using ih
      | rPr f => simpa [List.filterMap_cons] using ih
      | commentReference j => simpa [List.filterMap_cons] using ih

theorem viewsParaText_cons (c : ParaChild) (cs : List ParaChild) :
    viewsParaText ⟨c :: cs⟩ =
      (match c with
      | .run r => runTextChars r ++ viewsParaText ⟨cs⟩
      | _ => viewsParaText ⟨cs⟩) := by
  cases c with
  | run r =>
      show concatTexts (_ ++ _) = _
      rw [concatTexts_append, ← runTextChars_eq_concatTexts]
      rfl
  | commentRangeStart j => rfl
  | commentRangeEnd j => rfl
  | pPr st => rfl

/-- The parser's per-paragraph predicate, stated against the views' one:
the parser counts a paragraph iff it is view-non-blank or contains a
resolved drawing (the `'[IMAGE]'` markers make the parser text non-blank
exactly when a resolved drawing exists). -/
theorem parserCountsPara_eq (q : Para) :
    parserCountsPara q = (paraNonBlank q || paraHasResolvedDrawing q) := by
  obtain ⟨cs⟩ := q
  induction cs with
  | nil => rfl
  | cons c rest ih =>
      cases c with
      | run r =>
          have hpp : parserParaText ⟨ParaChild.run r :: rest⟩ =
              parserRunText r ++ parserParaText ⟨rest⟩ := rfl
          have hhi : paraHasResolvedDrawing ⟨ParaChild.run r :: rest⟩ =
              (decide (0 < runResolvedDrawings r) ||
                paraHasResolvedDrawing ⟨rest⟩) := by
            simp [paraHasResolvedDrawing, List.any_cons]
          rw [parserCountsPara, hpp, isBlankChars_append,
            isBlankChars_parserRunText, hhi, paraNonBlank,
            viewsParaText_cons]
          rw [parserCountsPara, paraNonBlank] at ih
          rw [isBlankChars_append]
          cases hn : decide (runResolvedDrawings r = 0) with
          | false =>
              have h0 : decide (0 < runResolvedDrawings r) = true := by
                simp at hn ⊢
                omega
              simp [h0]
          | true =>
              have h0 : decide (0 < runResolvedDrawings r) = false := by
                simp at hn ⊢
                omega
              rw [h0]
              cases hb : isBlankChars (runTextChars r) <;>
                cases hbp : isBlankChars (parserParaText ⟨rest⟩) <;>
                  cases hbv : isBlankChars (viewsParaText ⟨rest⟩) <;>
                    simp_all
      | commentRangeStart j =>
          have hpp : parserParaText ⟨ParaChild.commentRangeStart j :: rest⟩ =
              parserParaText ⟨rest⟩ := rfl
          rw [parserCountsPara, hpp, paraNonBlank, viewsParaText_cons]
          rw [parserCountsPara, paraNonBlank] at ih
          simpa [paraHasResolvedDrawing, List.any_cons] using ih
      | commentRangeEnd j =>
          have hpp : parserParaText ⟨ParaChild.commentRangeEnd j :: rest⟩ =
              parserParaText ⟨rest⟩ := rfl
          rw [parserCountsPara, hpp, paraNonBlank, viewsParaText_cons]
          rw [parserCountsPara, paraNonBlank] at ih
          simpa [paraHasResolvedDrawing, List.any_cons] using ih
      | pPr st =>
          have hpp : parserParaText ⟨ParaChild.pPr st :: rest⟩ =
              parserParaText ⟨rest⟩ := rfl
          rw [parserCountsPara, hpp, paraNonBlank, viewsParaText_cons]
          rw [parserCountsPara, paraNonBlank] at ih
          simpa [paraHasResolvedDrawing, List.any_cons] using ih

theorem numberAssignment_congr (p1 p2 : Para → Bool) :
    ∀ (ps : List Para) (cnt : Nat), (∀ q ∈ ps, p1 q = p2 q) →
      numberAssignment p1 ps cnt = numberAssignment p2 ps cnt := by
  intro ps
  induction ps with
  | nil => intro cnt _; rfl
  | cons q rest ih =>
      intro cnt h
      have hq := h q (by simp)
      rw [numberAssignment, numberAssignment, hq,
        ih cnt (fun x hx => h x (List.mem_cons_of_mem _ hx)),
        ih (cnt + 1) (fun x hx => h x (List.mem_cons_of_mem _ hx))]

end DocxSurgery

namespace DocxSurgery

/-- C2, counterexample: on a body whose first paragraph holds only a
resolved image drawing, the upload parser numbers both paragraphs (1 and 2)
while the scan every mutating view uses skips the image-only paragraph and
numbers the text paragraph 1 — the derived-numbering predicate is not the
same function in every subsystem. -/
theorem C2_numbering_disagrees_on_image_only_paragraph :
    parserNumbers [.p imgPara, .p (tPara ("A"))] = [some 1, some 2] ∧
    viewsNumbers [.p imgPara, .p (tPara ("A"))] = [none, some 1] ∧
    parserNumbers [.p imgPara, .p (tPara ("A"))] ≠
      viewsNumbers [.p imgPara, .p (tPara ("A"))] := by
  decide

/-- C2, amended: the four view-side scans (paragraph edit, paragraph delete
and insert, comment-anchor lookup and insertion) are the same textual loop
over the concatenated `w:t` text and so are all modelled by the single
predicate `paraNonBlank`/scan `scanGo`; the upload parser additionally
numbers paragraphs whose text is blank but which contain a resolved image
drawing.  Hence the parser's assignment agrees with the views' assignment on
every paragraph exactly when the document has no image-only (blank-text,
resolved-drawing) paragraph. -/
theorem C2_numbering_agreement_without_image_only_paragraphs
    (body : List BodyChild)
    (h : ∀ q ∈ parasOf body, paraNonBlank q = false →
      paraHasResolvedDrawing q = false) :
    parserNumbers body = viewsNumbers body := by
  rw [parserNumbers, viewsNumbers]
  refine numberAssignment_congr _ _ (parasOf body) 0 ?_
  intro q hq
  rw [parserCountsPara_eq]
  cases hnb : paraNonBlank q
  · rw [h q hq hnb]
    rfl
  · rfl

/-- Witness for C2 on a document with a blank spacing paragraph and a
paragraph carrying both text and an image. -/
theorem C2_numbering_agreement_without_image_only_paragraphs_witness :
    (∀ q ∈ parasOf [.p (tPara ("A")), .p (tPara (" ")),
        .p ⟨[.run ⟨[.t ⟨("B"), false⟩, .drawing true]⟩]⟩],
      paraNonBlank q = false → paraHasResolvedDrawing q = false) ∧
    parserNumbers [.p (tPara ("A")), .p (tPara (" ")),
        .p ⟨[.run ⟨[.t ⟨("B"), false⟩, .drawing true]⟩]⟩] =
      viewsNumbers [.p (tPara ("A")), .p (tPara (" ")),
        .p ⟨[.run ⟨[.t ⟨("B"), false⟩, .drawing true]⟩]⟩] :=
  ⟨by decide,
    C2_numbering_agreement_without_image_only_paragraphs _ (by decide)⟩

end DocxSurgery

namespace DocxSurgery

/-- When no view-numbered paragraph carries the comment's anchor, the lookup
loop falls through and returns 1. -/
theorem findCommentParagraphIdGo_no_anchor :
    ∀ (ps : List Para) (cnt cid : Nat),
      (∀ q ∈ ps, paraNonBlank q = true → paraHasAnchor q cid = false) →
      findCommentParagraphIdGo ps cnt cid = 1 := by
  intro ps
  induction ps with
  | nil => intro cnt cid _; rfl
  | cons q rest ih =>
      intro cnt cid h
      by_cases hq : paraNonBlank q
      · rw [findCommentParagraphIdGo, if_pos hq,
          if_neg (by simp [h q (by simp) hq])]
        exact ih (cnt + 1) cid (fun x hx hb => h x (List.mem_cons_of_mem _ hx) hb)
      · rw [findCommentParagraphIdGo, if_neg hq]
        exact ih cnt cid (fun x hx hb => h x (List.mem_cons_of_mem _ hx) hb)

/-- C7, counterexample: a comment present in `comments.xml` whose anchor
resolves to no paragraph but whose body text is whitespace-only is dropped by
`extract_comments_from_docx` (the `if comment_text:` filter at views.py line
303) instead of being assigned paragraph 1. -/
theorem C7_blank_text_comment_dropped :
    ((⟨5, ("bob"), [(" ")]⟩ : CommentEntry) ∈
      [(⟨5, ("bob"), [(" ")]⟩ : CommentEntry)]) ∧
    (∀ q ∈ parasOf [.p (tPara ("A"))], paraHasAnchor q 5 = false) ∧
    extractCommentsFromDocx
      ⟨[.p (tPara ("A"))], some [⟨5, ("bob"), [(" ")]⟩]⟩ = [] := by
  decide

/-- C7, amended: during upload parsing, every comment of `comments.xml`
whose built body text is non-empty and whose anchor
(`commentRangeStart`/`commentReference`) occurs in no view-numbered paragraph
is assigned paragraph number 1 and kept in the extraction result; comments
whose body text is blank are dropped regardless of their anchors. -/
theorem C7_unresolvable_anchor_defaults_to_paragraph_one
    (s : DocxState) (entries : List CommentEntry) (e : CommentEntry)
    (hc : s.comments = some entries) (he : e ∈ entries)
    (htext : commentBodyText e.paragraphTexts ≠ [])
    (hanchor : ∀ q ∈ parasOf s.body, paraNonBlank q = true →
      paraHasAnchor q e.id = false) :
    findCommentParagraphId s.body e.id = 1 ∧
    (⟨e.id, e.author, commentBodyText e.paragraphTexts, 1⟩ : ExtractedComment) ∈
      extractCommentsFromDocx s := by
  have h1 : findCommentParagraphId s.body e.id = 1 :=
    findCommentParagraphIdGo_no_anchor (parasOf s.body) 0 e.id hanchor
  refine ⟨h1, ?_⟩
  rw [extractCommentsFromDocx, hc, List.mem_filterMap]
  refine ⟨e, he, ?_⟩
  rw [if_neg htext, h1]

/-- Witness for C7: an anchorless non-blank comment on a one-paragraph
document. -/
theorem C7_unresolvable_anchor_defaults_to_paragraph_one_witness :
    ((⟨3, ("eve"), [("fix this")]⟩ : CommentEntry) ∈
      [(⟨3, ("eve"), [("fix this")]⟩ : CommentEntry)]) ∧
    commentBodyText [("fix this")] ≠ [] ∧
    (findCommentParagraphId [.p (tPara ("A"))] 3 = 1 ∧
      (⟨3, ("eve"), commentBodyText [("fix this")], 1⟩ : ExtractedComment) ∈
        extractCommentsFromDocx
          ⟨[.p (tPara ("A"))], some [⟨3, ("eve"), [("fix this")]⟩]⟩) :=
  ⟨by decide, by decide,
    C7_unresolvable_anchor_defaults_to_paragraph_one
      ⟨[.p (tPara ("A"))], some [⟨3, ("eve"), [("fix this")]⟩]⟩
      [⟨3, ("eve"), [("fix this")]⟩] ⟨3, ("eve"), [("fix this")]⟩
      rfl (by decide) (by decide) (by decide)⟩

end DocxSurgery

namespace DocxSurgery

theorem runTNodes_stripRunTexts (r : Run) : runTNodes (stripRunTexts r) = [] := by
  obtain ⟨cs⟩ := r
  rw [stripRunTexts, runTNodes]
  induction cs with
  | nil => rfl
  | cons c rest ih =>
      cases c <;> simpa [List.filter_cons, List.filterMap_cons] using ih

theorem runFmts_stripRunTexts (r : Run) : runFmts (stripRunTexts r) = runFmts r := by
  obtain ⟨cs⟩ := r
  rw [stripRunTexts, runFmts, runFmts]
  induction cs with
  | nil => rfl
  | cons c rest ih =>
      cases c <;> simpa [List.filter_cons, List.filterMap_cons] using ih

theorem runTNodes_append_t (r : Run) (node : TextNode) :
    runTNodes ⟨r.children ++ [.t node]⟩ = runTNodes r ++ [node] := by
  rw [runTNodes, runTNodes, List.filterMap_append]
  rfl

theorem runFmts_append_t (r : Run) (node : TextNode) :
    runFmts ⟨r.children ++ [.t node]⟩ = runFmts r := by
  rw [runFmts, runFmts, List.filterMap_append]
  simp

theorem runsOf_append (cs1 cs2 : List ParaChild) :
    runsOf ⟨cs1 ++ cs2⟩ = runsOf ⟨cs1⟩ ++ runsOf ⟨cs2⟩ := by
  rw [runsOf, runsOf, runsOf, List.filterMap_append]

theorem runsOf_clearRunTexts (cs : List ParaChild) :
    runsOf ⟨clearRunTexts cs⟩ = (runsOf ⟨cs⟩).map stripRunTexts := by
  induction cs with
  | nil => rfl
  | cons c rest ih =>
      cases c <;> simpa [runsOf, clearRunTexts, List.filterMap_cons] using ih

theorem paraHasRun_eq_not_isEmpty (q : Para) :
    paraHasRun q = !(runsOf q).isEmpty := by
  obtain ⟨cs⟩ := q
  induction cs with
  | nil => rfl
  | cons c rest ih =>
      cases c <;>
        simp_all [paraHasRun, runsOf, List.any_cons, List.filterMap_cons]

theorem runsOf_addTextToFirstRun :
    ∀ (cs : List ParaChild) (node : TextNode) (r0 : Run) (rs : List Run),
      runsOf ⟨cs⟩ = r0 :: rs →
      runsOf ⟨addTextToFirstRun cs node⟩ = ⟨r0.children ++ [.t node]⟩ :: rs := by
  intro cs
  induction cs with
  | nil => intro node r0 rs h; simp [runsOf] at h
  | cons c rest ih =>
      intro node r0 rs h
      cases c with
      | run r =>
          simp only [runsOf, List.filterMap_cons] at h
          obtain ⟨rfl, hrs⟩ := List.cons.inj h
          rw [addTextToFirstRun]
          simp only [runsOf, List.filterMap_cons, hrs]
      | commentRangeStart j =>
          simp only [runsOf, List.filterMap_cons] at h
          rw [addTextToFirstRun]
          simp only [runsOf, List.filterMap_cons]
          exact ih node r0 rs h
      | commentRangeEnd j =>
          simp only [runsOf, List.filterMap_cons] at h
          rw [addTextToFirstRun]
          simp only [runsOf, List.filterMap_cons]
          exact ih node r0 rs h
      | pPr st =>
          simp only [runsOf, List.filterMap_cons] at h
          rw [addTextToFirstRun]
          simp only [runsOf, List.filterMap_cons]
          exact ih node r0 rs h

theorem paraTextNodes_eq_flatten (q : Para) :
    paraTextNodes q = ((runsOf q).map runTNodes).flatten := by
  obtain ⟨cs⟩ := q
  induction cs with
  | nil => rfl
  | cons c rest ih =>
      cases c <;>
        simpa [paraTextNodes, runsOf, runTNodes, List.filterMap_cons] using ih

end DocxSurgery

namespace DocxSurgery

theorem replaceParaText_eq_nonblank (q : Para) (txt : String)
    (hnb : isBlankChars txt.data = false) :
    replaceParaText q txt =
      ⟨addTextToFirstRun
        (if paraHasRun q then clearRunTexts q.children
         else clearRunTexts q.children ++ [.run ⟨[]⟩])
        ⟨txt, decide (stripChars txt.data ≠ txt.data)⟩⟩ := by
  rw [replaceParaText]
  simp [hnb]

/-- Characterization of the replace-text transformation for non-blank new
text: the result has a first run holding exactly one text node carrying the
new text, whose `xml:space` marking is set iff the text has leading or
trailing whitespace; every other run has no text node; and the run
formatting contents are preserved (with a single fresh formatting-free run
when the paragraph had none). -/
theorem replaceParaText_nonblank_spec (q : Para) (txt : String)
    (hnb : isBlankChars txt.data = false) :
    (∃ r0 rs, runsOf (replaceParaText q txt) = r0 :: rs ∧
      (∃ node, runTNodes r0 = [node] ∧ node.text = txt ∧
        (node.preserve = true ↔ stripChars txt.data ≠ txt.data)) ∧
      ∀ r ∈ rs, runTNodes r = []) ∧
    paraRunFmts (replaceParaText q txt) =
      (if paraHasRun q then paraRunFmts q else [[]]) := by
  have hrepl := replaceParaText_eq_nonblank q txt hnb
  cases hr : paraHasRun q with
  | true =>
      obtain ⟨r0, rs0, hr0⟩ : ∃ r0 rs0, runsOf q = r0 :: rs0 := by
        rw [paraHasRun_eq_not_isEmpty] at hr
        cases hq : runsOf q with
        | nil => rw [hq] at hr; simp at hr
        | cons a b => exact ⟨a, b, rfl⟩
      have hclr : runsOf ⟨clearRunTexts q.children⟩ =
          stripRunTexts r0 :: rs0.map stripRunTexts := by
        rw [runsOf_clearRunTexts]
        show (runsOf q).map stripRunTexts = _
        rw [hr0, List.map_cons]
      have hruns : runsOf (replaceParaText q txt) =
          (⟨(stripRunTexts r0).children ++
            [.t ⟨txt, decide (stripChars txt.data ≠ txt.data)⟩]⟩ : Run) ::
            rs0.map stripRunTexts := by
        rw [hrepl, hr]
        simp only [if_true]
        exact runsOf_addTextToFirstRun _ _ _ _ hclr
      refine ⟨⟨_, _, hruns,
        ⟨⟨txt, decide (stripChars txt.data ≠ txt.data)⟩, ?_, rfl, ?_⟩, ?_⟩, ?_⟩
      · rw [runTNodes_append_t, runTNodes_stripRunTexts]
        rfl
      · exact decide_eq_true_iff
      · intro r hrmem
        obtain ⟨r2, hr2, rfl⟩ := List.mem_map.mp hrmem
        exact runTNodes_stripRunTexts r2
      · rw [paraRunFmts, hruns, List.map_cons, runFmts_append_t,
          runFmts_stripRunTexts, if_pos rfl, paraRunFmts, hr0, List.map_cons]
        congr 1
        rw [List.map_map]
        exact List.map_congr_left (fun r _ => runFmts_stripRunTexts r)
  | false =>
      have hnil : runsOf q = [] := by
        rw [paraHasRun_eq_not_isEmpty] at hr
        cases hq : runsOf q with
        | nil => rfl
        | cons a b => rw [hq] at hr; simp at hr
      have hclr : runsOf ⟨clearRunTexts q.children ++ [.run ⟨[]⟩]⟩ =
          [⟨[]⟩] := by
        rw [runsOf_append, runsOf_clearRunTexts]
        show (runsOf q).map stripRunTexts ++ _ = _
        rw [hnil]
        rfl
      have hruns : runsOf (replaceParaText q txt) =
          [(⟨[.t ⟨txt, decide (stripChars txt.data ≠ txt.data)⟩]⟩ : Run)] := by
        rw [hrepl, hr]
        simp only [Bool.false_eq_true, if_false]
        have h2 := runsOf_addTextToFirstRun
          (clearRunTexts q.children ++ [.run ⟨[]⟩])
          ⟨txt, decide (stripChars txt.data ≠ txt.data)⟩ _ _ hclr
        simpa using h2
      refine ⟨⟨_, _, hruns, ⟨_, rfl, rfl, decide_eq_true_iff⟩, by simp⟩, ?_⟩
      rw [paraRunFmts, hruns, if_neg (by simp)]
      rfl

end DocxSurgery

namespace DocxSurgery

theorem flatten_runTNodes_strip (rs : List Run) :
    ((rs.map stripRunTexts).map runTNodes).flatten = [] := by
  induction rs with
  | nil => rfl
  | cons r rest ih => simp [runTNodes_stripRunTexts, ih]

/-- For blank replacement text the transformation leaves the paragraph with
no text node at all: all `w:t` children were removed and none was added. -/
theorem replaceParaText_blank (q : Para) (txt : String)
    (hb : isBlankChars txt.data = true) :
    paraTextNodes (replaceParaText q txt) = [] := by
  have hrepl : replaceParaText q txt =
      ⟨if paraHasRun q then clearRunTexts q.children
       else clearRunTexts q.children ++ [.run ⟨[]⟩]⟩ := by
    rw [replaceParaText]
    simp [hb]
  rw [hrepl, paraTextNodes_eq_flatten]
  cases hr : paraHasRun q with
  | true =>
      simp only [if_true]
      rw [runsOf_clearRunTexts]
      exact flatten_runTNodes_strip (runsOf ⟨q.children⟩)
  | false =>
      simp only [Bool.false_eq_true, if_false]
      rw [runsOf_append, runsOf_clearRunTexts, List.map_append,
        List.flatten_append, flatten_runTNodes_strip]
      rfl

theorem paraNonBlank_of_paraTextNodes_nil (q : Para)
    (h : paraTextNodes q = []) : paraNonBlank q = false := by
  rw [paraNonBlank, viewsParaText, h]
  rfl

theorem set_length_append {α : Type} (A B : List α) (x y : α) :
    (A ++ x :: B).set A.length y = A ++ y :: B := by
  induction A with
  | nil => rfl
  | cons a rest ih =>
      show a :: (rest ++ x :: B).set rest.length y = a :: (rest ++ y :: B)
      rw [ih]

theorem eraseIdx_length_append {α : Type} (A B : List α) (x : α) :
    (A ++ x :: B).eraseIdx A.length = A ++ B := by
  induction A with
  | nil => rfl
  | cons a rest ih =>
      show a :: (rest ++ x :: B).eraseIdx rest.length = a :: (rest ++ B)
      rw [ih]

theorem getElem?_length_append {α : Type} (A B : List α) (x : α) :
    (A ++ x :: B)[A.length]? = some x := by
  induction A with
  | nil => simp
  | cons a rest ih => simpa using ih

theorem viewsEnumTexts_append (l1 l2 : List BodyChild) :
    viewsEnumTexts (l1 ++ l2) = viewsEnumTexts l1 ++ viewsEnumTexts l2 := by
  rw [viewsEnumTexts, viewsEnumTexts, viewsEnumTexts, parasOf_append,
    List.filter_append, List.map_append]

theorem viewsEnumTexts_cons_p (q : Para) (l : List BodyChild) :
    viewsEnumTexts (.p q :: l) =
      (if paraNonBlank q then viewsParaText q :: viewsEnumTexts l
       else viewsEnumTexts l) := by
  rw [viewsEnumTexts, parasOf_cons_p]
  cases hq : paraNonBlank q <;> simp [List.filter_cons, hq, viewsEnumTexts]

theorem length_viewsEnumTexts (l : List BodyChild) :
    (viewsEnumTexts l).length = countNumberedB l := by
  rw [viewsEnumTexts, List.length_map, countNumberedB, countNumbered,
    List.countP_eq_length_filter]

end DocxSurgery

namespace DocxSurgery

/-- C10: replacing the text of the paragraph numbered `pid` with blank text
removes every text node of that paragraph without adding one, so the
paragraph stops satisfying the non-blank-text predicate and the document
enumeration equals the old one with the `pid`-th entry removed — every later
numbered paragraph's derived number drops by one.  The operation itself is
total (the source loop raises nothing on this path). -/
theorem C10_blank_replacement_unnumbers_paragraph
    (body : List BodyChild) (pid i : Nat) (newText : String)
    (hscan : scanForParagraph body pid = some i)
    (hblank : isBlankChars newText.data = true) :
    ∃ q, body[i]? = some (.p q) ∧ paraNonBlank q = true ∧
      updateParagraphInDocx body pid newText =
        body.set i (.p (replaceParaText q newText)) ∧
      paraTextNodes (replaceParaText q newText) = [] ∧
      viewsEnumTexts (updateParagraphInDocx body pid newText) =
        (viewsEnumTexts body).eraseIdx (pid - 1) := by
  obtain ⟨A, q, B, hb, hl, hnb, hcnt⟩ := scanGo_eq_some body 0 pid i hscan
  subst hb
  have hget : (A ++ .p q :: B)[i]? = some (.p q) := by
    rw [← hl]
    exact getElem?_length_append A B (.p q)
  have hupd : updateParagraphInDocx (A ++ .p q :: B) pid newText =
      (A ++ .p q :: B).set i (.p (replaceParaText q newText)) := by
    simp only [updateParagraphInDocx, hscan, hget]
  have hset : (A ++ .p q :: B).set i (.p (replaceParaText q newText)) =
      A ++ .p (replaceParaText q newText) :: B := by
    rw [← hl]
    exact set_length_append A B (.p q) (.p (replaceParaText q newText))
  have htn : paraTextNodes (replaceParaText q newText) = [] :=
    replaceParaText_blank q newText hblank
  have hq2 : paraNonBlank (replaceParaText q newText) = false :=
    paraNonBlank_of_paraTextNodes_nil _ htn
  refine ⟨q, hget, hnb, hupd, htn, ?_⟩
  rw [hupd, hset, viewsEnumTexts_append, viewsEnumTexts_cons_p, hq2,
    viewsEnumTexts_append, viewsEnumTexts_cons_p, hnb]
  simp only [Bool.false_eq_true, if_false, if_true]
  have hidx : pid - 1 = (viewsEnumTexts A).length := by
    rw [length_viewsEnumTexts]
    omega
  rw [hidx, eraseIdx_length_append]

/-- C8, counterexample: replacing the text of paragraph 1 of `["A"]` with
the whitespace-only string `" "` leaves the paragraph's run with no text
node at all — the new text is not written into the first run's text node
and no node is marked whitespace-preserving, contrary to the claim read at
blank input. -/
theorem C8_blank_replacement_writes_no_text_node :
    updateParagraphInDocx [.p (tPara ("A"))] 1 (" ") =
      [.p ⟨[.run ⟨[]⟩]⟩] ∧
    paraTextNodes ⟨[.run ⟨[]⟩]⟩ = [] ∧
    ¬ (∃ node : TextNode, node ∈ paraTextNodes ⟨[.run ⟨[]⟩]⟩ ∧
      node.text = (" ")) := by
  refine ⟨by rfl, by rfl, ?_⟩
  decide

/-- C8, amended: for non-blank new text, the replace-text operation on the
paragraph numbered `pid` removes every existing text node from its runs
while preserving run formatting contents, creates a run when the paragraph
had none, and writes the new text as the single text node of the first run,
marked `xml:space="preserve"` exactly when the text has leading or trailing
whitespace.  (For blank new text no text node is written — see the
counterexample and C10.) -/
theorem C8_replace_text_characterization
    (body : List BodyChild) (pid i : Nat) (newText : String)
    (hscan : scanForParagraph body pid = some i)
    (hnb : isBlankChars newText.data = false) :
    ∃ q, body[i]? = some (.p q) ∧ paraNonBlank q = true ∧
      updateParagraphInDocx body pid newText =
        body.set i (.p (replaceParaText q newText)) ∧
      (∃ r0 rs, runsOf (replaceParaText q newText) = r0 :: rs ∧
        (∃ node, runTNodes r0 = [node] ∧ node.text = newText ∧
          (node.preserve = true ↔
            stripChars newText.data ≠ newText.data)) ∧
        ∀ r ∈ rs, runTNodes r = []) ∧
      paraRunFmts (replaceParaText q newText) =
        (if paraHasRun q then paraRunFmts q else [[]]) := by
  obtain ⟨A, q, B, hb, hl, hpnb, hcnt⟩ := scanGo_eq_some body 0 pid i hscan
  subst hb
  have hget : (A ++ .p q :: B)[i]? = some (.p q) := by
    rw [← hl]
    exact getElem?_length_append A B (.p q)
  have hupd : updateParagraphInDocx (A ++ .p q :: B) pid newText =
      (A ++ .p q :: B).set i (.p (replaceParaText q newText)) := by
    simp only [updateParagraphInDocx, hscan, hget]
  obtain ⟨hr, hfmts⟩ := replaceParaText_nonblank_spec q newText hnb
  exact ⟨q, hget, hpnb, hupd, hr, hfmts⟩

end DocxSurgery

namespace DocxSurgery

/-- Witness for C10: blanking paragraph 1 of `["A", "B"]`. -/
theorem C10_blank_replacement_unnumbers_paragraph_witness :
    scanForParagraph [.p (tPara ("A")), .p (tPara ("B"))] 1 = some 0 ∧
    isBlankChars ("").data = true ∧
    (∃ q, ([.p (tPara ("A")), .p (tPara ("B"))] :
        List BodyChild)[0]? = some (.p q) ∧
      paraNonBlank q = true ∧
      updateParagraphInDocx [.p (tPara ("A")), .p (tPara ("B"))] 1 ("") =
        [.p (tPara ("A")), .p (tPara ("B"))].set 0
          (.p (replaceParaText q (""))) ∧
      paraTextNodes (replaceParaText q ("")) = [] ∧
      viewsEnumTexts
          (updateParagraphInDocx [.p (tPara ("A")), .p (tPara ("B"))] 1 ("")) =
        (viewsEnumTexts [.p (tPara ("A")), .p (tPara ("B"))]).eraseIdx
          (1 - 1)) :=
  ⟨by decide, by decide,
    C10_blank_replacement_unnumbers_paragraph _ 1 0 ("") (by decide) (by decide)⟩

/-- Witness for C8: rewriting a bold-formatted one-paragraph document with
`" X"` (leading whitespace). -/
theorem C8_replace_text_characterization_witness :
    scanForParagraph
      [.p ⟨[.run ⟨[.rPr [("b")], .t ⟨("A"), false⟩]⟩]⟩] 1 = some 0 ∧
    isBlankChars (" X").data = false ∧
    (∃ q, ([.p ⟨[.run ⟨[.rPr [("b")], .t ⟨("A"), false⟩]⟩]⟩] :
        List BodyChild)[0]? = some (.p q) ∧
      paraNonBlank q = true ∧
      updateParagraphInDocx
          [.p ⟨[.run ⟨[.rPr [("b")], .t ⟨("A"), false⟩]⟩]⟩] 1 (" X") =
        [.p ⟨[.run ⟨[.rPr [("b")], .t ⟨("A"), false⟩]⟩]⟩].set 0
          (.p (replaceParaText q (" X"))) ∧
      (∃ r0 rs, runsOf (replaceParaText q (" X")) = r0 :: rs ∧
        (∃ node, runTNodes r0 = [node] ∧ node.text = (" X") ∧
          (node.preserve = true ↔
            stripChars (" X").data ≠ (" X").data)) ∧
        ∀ r ∈ rs, runTNodes r = []) ∧
      paraRunFmts (replaceParaText q (" X")) =
        (if paraHasRun q then paraRunFmts q else [[]])) :=
  ⟨by decide, by decide,
    C8_replace_text_characterization _ 1 0 (" X") (by decide) (by decide)⟩

end DocxSurgery

namespace DocxSurgery

/-! ### Counting lemmas for the comment-anchor invariant -/

theorem startCount_cons_p (q : Para) (l : List BodyChild) (j : Nat) :
    startCount (.p q :: l) j = paraStartCount q j + startCount l j := by
  rw [startCount, parasOf_cons_p, List.map_cons, List.sum_cons]
  rfl

theorem startCount_cons_other (t : String) (l : List BodyChild) (j : Nat) :
    startCount (.other t :: l) j = startCount l j := rfl

theorem endCount_cons_p (q : Para) (l : List BodyChild) (j : Nat) :
    endCount (.p q :: l) j = paraEndCount q j + endCount l j := by
  rw [endCount, parasOf_cons_p, List.map_cons, List.sum_cons]
  rfl

theorem endCount_cons_other (t : String) (l : List BodyChild) (j : Nat) :
    endCount (.other t :: l) j = endCount l j := rfl

theorem refCount_cons_p (q : Para) (l : List BodyChild) (j : Nat) :
    refCount (.p q :: l) j = paraRefCount q j + refCount l j := by
  rw [refCount, parasOf_cons_p, List.map_cons, List.sum_cons]
  rfl

theorem refCount_cons_other (t : String) (l : List BodyChild) (j : Nat) :
    refCount (.other t :: l) j = refCount l j := rfl

theorem startCount_append (l1 l2 : List BodyChild) (j : Nat) :
    startCount (l1 ++ l2) j = startCount l1 j + startCount l2 j := by
  rw [startCount, startCount, startCount, parasOf_append, List.map_append,
    List.sum_append]

theorem endCount_append (l1 l2 : List BodyChild) (j : Nat) :
    endCount (l1 ++ l2) j = endCount l1 j + endCount l2 j := by
  rw [endCount, endCount, endCount, parasOf_append, List.map_append,
    List.sum_append]

theorem refCount_append (l1 l2 : List BodyChild) (j : Nat) :
    refCount (l1 ++ l2) j = refCount l1 j + refCount l2 j := by
  rw [refCount, refCount, refCount, parasOf_append, List.map_append,
    List.sum_append]

theorem runRefCount_runRemoveRefs (r : Run) (cid j : Nat) :
    runRefCount (runRemoveRefs r cid) j =
      (if j = cid then 0 else runRefCount r j) := by
  simp only [runRemoveRefs, runRefCount, List.countP_filter]
  by_cases hj : j = cid
  · subst hj
    rw [if_pos rfl]
    refine List.countP_eq_zero.mpr ?_
    intro a _
    cases a with
    | commentReference k => by_cases hk : k = j <;> simp [hk]
    | t n => simp
    | drawing b => simp
    | rPr f => simp
  · rw [if_neg hj]
    refine List.countP_congr ?_
    intro a _
    cases a with
    | commentReference k =>
        by_cases hk : k = j
        · subst hk
          simp [hj]
        · simp [hk]
    | t n => simp
    | drawing b => simp
    | rPr f => simp

theorem paraStartCount_paraRemoveAnchors (q : Para) (cid j : Nat) :
    paraStartCount (paraRemoveAnchors q cid) j =
      (if j = cid then 0 else paraStartCount q j) := by
  simp only [paraRemoveAnchors, paraStartCount, List.countP_filterMap]
  by_cases hj : j = cid
  · subst hj
    rw [if_pos rfl]
    refine List.countP_eq_zero.mpr ?_
    intro a _
    cases a with
    | commentRangeStart k => by_cases hk : k = j <;> simp [hk]
    | commentRangeEnd k => by_cases hk : k = j <;> simp [hk]
    | run r => simp
    | pPr st => simp
  · rw [if_neg hj]
    refine List.countP_congr ?_
    intro a _
    cases a with
    | commentRangeStart k =>
        by_cases hk : k = cid
        · subst hk
          by_cases hjk : k = j
          · exact absurd hjk.symm hj
          · simp [hjk]
        · simp [hk]
    | commentRangeEnd k => by_cases hk : k = cid <;> simp [hk]
    | run r => simp
    | pPr st => simp

theorem paraEndCount_paraRemoveAnchors (q : Para) (cid j : Nat) :
    paraEndCount (paraRemoveAnchors q cid) j =
      (if j = cid then 0 else paraEndCount q j) := by
  simp only [paraRemoveAnchors, paraEndCount, List.countP_filterMap]
  by_cases hj : j = cid
  · subst hj
    rw [if_pos rfl]
    refine List.countP_eq_zero.mpr ?_
    intro a _
    cases a with
    | commentRangeStart k => by_cases hk : k = j <;> simp [hk]
    | commentRangeEnd k => by_cases hk : k = j <;> simp [hk]
    | run r => simp
    | pPr st => simp
  · rw [if_neg hj]
    refine List.countP_congr ?_
    intro a _
    cases a with
    | commentRangeEnd k =>
        by_cases hk : k = cid
        · subst hk
          by_cases hjk : k = j
          · exact absurd hjk.symm hj
          · simp [hjk]
        · simp [hk]
    | commentRangeStart k => by_cases hk : k = cid <;> simp [hk]
    | run r => simp
    | pPr st => simp

theorem paraRefCount_paraRemoveAnchors (q : Para) (cid j : Nat) :
    paraRefCount (paraRemoveAnchors q cid) j =
      (if j = cid then 0 else paraRefCount q j) := by
  obtain ⟨cs⟩ := q
  simp only [paraRemoveAnchors, paraRefCount]
  induction cs with
  | nil => simp
  | cons c rest ih =>
      cases c with
      | run r =>
          simp only [List.filterMap_cons, List.map_cons, List.sum_cons]
          rw [runRefCount_runRemoveRefs, ih]
          by_cases hj : j = cid
          · rw [if_pos hj, if_pos hj, if_pos hj]
          · rw [if_neg hj, if_neg hj, if_neg hj]
      | pPr st =>
          simp only [List.filterMap_cons, List.map_cons, List.sum_cons]
          rw [ih]
          by_cases hj : j = cid <;> simp [hj]
      | commentRangeStart k =>
          by_cases hj : j = cid
          · subst hj
            by_cases hk : k = j <;> simp [List.filterMap_cons, hk, ih]
          · by_cases hk : k = cid <;> simp [List.filterMap_cons, hk, hj, ih]
      | commentRangeEnd k =>
          by_cases hj : j = cid
          · subst hj
            by_cases hk : k = j <;> simp [List.filterMap_cons, hk, ih]
          · by_cases hk : k = cid <;> simp [List.filterMap_cons, hk, hj, ih]

end DocxSurgery

namespace DocxSurgery

theorem startCount_removeCommentReferences (body : List BodyChild)
    (cid j : Nat) :
    startCount (removeCommentReferences body cid) j =
      (if j = cid then 0 else startCount body j) := by
  induction body with
  | nil => simp [removeCommentReferences, startCount, parasOf]
  | cons c rest ih =>
      cases c with
      | p q =>
          simp only [removeCommentReferences, List.map_cons, startCount_cons_p] at ih ⊢
          rw [paraStartCount_paraRemoveAnchors, ih]
          by_cases hj : j = cid <;> simp [hj]
      | other t =>
          simp only [removeCommentReferences, List.map_cons, startCount_cons_other] at ih ⊢
          exact ih

theorem endCount_removeCommentReferences (body : List BodyChild)
    (cid j : Nat) :
    endCount (removeCommentReferences body cid) j =
      (if j = cid then 0 else endCount body j) := by
  induction body with
  | nil => simp [removeCommentReferences, endCount, parasOf]
  | cons c rest ih =>
      cases c with
      | p q =>
          simp only [removeCommentReferences, List.map_cons, endCount_cons_p] at ih ⊢
          rw [paraEndCount_paraRemoveAnchors, ih]
          by_cases hj : j = cid <;> simp [hj]
      | other t =>
          simp only [removeCommentReferences, List.map_cons, endCount_cons_other] at ih ⊢
          exact ih

theorem refCount_removeCommentReferences (body : List BodyChild)
    (cid j : Nat) :
    refCount (removeCommentReferences body cid) j =
      (if j = cid then 0 else refCount body j) := by
  induction body with
  | nil => simp [removeCommentReferences, refCount, parasOf]
  | cons c rest ih =>
      cases c with
      | p q =>
          simp only [removeCommentReferences, List.map_cons, refCount_cons_p] at ih ⊢
          rw [paraRefCount_paraRemoveAnchors, ih]
          by_cases hj : j = cid <;> simp [hj]
      | other t =>
          simp only [removeCommentReferences, List.map_cons, refCount_cons_other] at ih ⊢
          exact ih

end DocxSurgery

namespace DocxSurgery

theorem paraStartCount_anchorPara (q : Para) (cid j : Nat) :
    paraStartCount (anchorPara q cid) j =
      paraStartCount q j + (if cid = j then 1 else 0) := by
  simp only [anchorPara, paraStartCount, List.countP_cons, List.countP_append]
  by_cases h : cid = j <;> simp [h]

theorem paraEndCount_anchorPara (q : Para) (cid j : Nat) :
    paraEndCount (anchorPara q cid) j =
      paraEndCount q j + (if cid = j then 1 else 0) := by
  simp only [anchorPara, paraEndCount, List.countP_cons, List.countP_append]
  by_cases h : cid = j <;> simp [h]

theorem paraRefCount_anchorPara (q : Para) (cid j : Nat) :
    paraRefCount (anchorPara q cid) j =
      paraRefCount q j + (if cid = j then 1 else 0) := by
  simp only [anchorPara, paraRefCount, runRefCount, List.map_cons,
    List.map_append, List.sum_cons, List.sum_append, List.countP_cons,
    List.countP_nil]
  by_cases h : cid = j <;> simp [h]

/-- When `anchorApplies` holds, the anchor insertion rewrites exactly the
located paragraph. -/
theorem anchorApplies_spec (body : List BodyChild) (pid cid : Nat)
    (h : anchorApplies body pid = true) :
    ∃ A q B, body = A ++ .p q :: B ∧ paraHasRun q = true ∧
      addCommentReferenceToDocument body pid cid =
        A ++ .p (anchorPara q cid) :: B := by
  cases hscan : scanForParagraph body pid with
  | none => simp [anchorApplies, hscan] at h
  | some i =>
      obtain ⟨A, q, B, hb, hl, hnb, hcnt⟩ := scanGo_eq_some body 0 pid i hscan
      subst hb
      have hget : (A ++ .p q :: B)[i]? = some (.p q) := by
        rw [← hl]
        exact getElem?_length_append A B (.p q)
      simp only [anchorApplies, hscan, hget] at h
      refine ⟨A, q, B, rfl, h, ?_⟩
      simp only [addCommentReferenceToDocument, hscan, hget, h, if_true]
      rw [← hl]
      exact set_length_append A B (.p q) (.p (anchorPara q cid))

theorem countP_removeFirst_ne (l : List CommentEntry) (cid j : Nat)
    (hne : ¬j = cid) :
    (removeFirstComment l cid).countP (fun e => e.id = j) =
      l.countP (fun e => e.id = j) := by
  induction l with
  | nil => rfl
  | cons e rest ih =>
      rw [removeFirstComment]
      by_cases he : e.id = cid
      · rw [if_pos he, List.countP_cons]
        have hid : (decide (e.id = j)) = false := by
          simp
          omega
        simp [hid]
      · rw [if_neg he, List.countP_cons, List.countP_cons, ih]

theorem countP_removeFirst_self (l : List CommentEntry) (cid : Nat) :
    (removeFirstComment l cid).countP (fun e => e.id = cid) =
      l.countP (fun e => e.id = cid) - 1 := by
  induction l with
  | nil => rfl
  | cons e rest ih =>
      rw [removeFirstComment]
      by_cases he : e.id = cid
      · rw [if_pos he, List.countP_cons]
        simp [he]
      · rw [if_neg he, List.countP_cons, ih]
        have hid : (decide (e.id = cid)) = false := by simp [he]
        simp [hid]

end DocxSurgery

namespace DocxSurgery

theorem entryCount_del (cm : Option (List CommentEntry)) (cid j : Nat) :
    entryCount (cm.map (fun l => removeFirstComment l cid)) j =
      (if j = cid then entryCount cm j - 1 else entryCount cm j) := by
  cases cm with
  | none => by_cases hj : j = cid <;> simp [entryCount, hj]
  | some l =>
      by_cases hj : j = cid
      · subst hj
        simpa [entryCount] using countP_removeFirst_self l j
      · simpa [entryCount, hj] using countP_removeFirst_ne l cid j hj

/-- One valid comment operation preserves the anchor-triad invariant. -/
theorem commentOp_preserves_invariant (s : DocxState) (op : CommentOp)
    (hinv : anchorInvariant s) (hval : commentOpValid s op) :
    anchorInvariant (applyCommentOp s op) := by
  cases op with
  | add pid cid author text =>
      obtain ⟨hfresh, happ⟩ := hval
      obtain ⟨A, q, B, hb, hrun, hadd⟩ := anchorApplies_spec s.body pid cid happ
      intro j
      have hsc : startCount (addCommentReferenceToDocument s.body pid cid) j =
          startCount s.body j + (if cid = j then 1 else 0) := by
        rw [hadd, hb, startCount_append, startCount_cons_p,
          startCount_append, startCount_cons_p, paraStartCount_anchorPara]
        by_cases hcj : cid = j <;> simp [hcj] <;> omega
      have hec : endCount (addCommentReferenceToDocument s.body pid cid) j =
          endCount s.body j + (if cid = j then 1 else 0) := by
        rw [hadd, hb, endCount_append, endCount_cons_p,
          endCount_append, endCount_cons_p, paraEndCount_anchorPara]
        by_cases hcj : cid = j <;> simp [hcj] <;> omega
      have hrc : refCount (addCommentReferenceToDocument s.body pid cid) j =
          refCount s.body j + (if cid = j then 1 else 0) := by
        rw [hadd, hb, refCount_append, refCount_cons_p,
          refCount_append, refCount_cons_p, paraRefCount_anchorPara]
        by_cases hcj : cid = j <;> simp [hcj] <;> omega
      have hent : entryCount
          (some ((s.comments.getD []) ++ [⟨cid, author, [text]⟩])) j =
          entryCount s.comments j + (if cid = j then 1 else 0) := by
        simp [entryCount, List.countP_append, List.countP_singleton]
      obtain ⟨hle, hone, hzero⟩ := hinv j
      show entryCount _ j ≤ 1 ∧ _
      rw [show (applyCommentOp s (.add pid cid author text)).comments =
          some ((s.comments.getD []) ++ [⟨cid, author, [text]⟩]) from rfl,
        show (applyCommentOp s (.add pid cid author text)).body =
          addCommentReferenceToDocument s.body pid cid from rfl,
        hent, hsc, hec, hrc]
      by_cases hcj : cid = j
      · subst hcj
        obtain ⟨hs0, he0, hr0⟩ := hzero hfresh
        rw [hfresh, hs0, he0, hr0, if_pos rfl]
        exact ⟨by omega, fun _ => ⟨rfl, rfl, rfl⟩, fun h => by omega⟩
      · rw [if_neg hcj]
        simp only [Nat.add_zero]
        exact ⟨hle, hone, hzero⟩
  | del cid =>
      intro j
      obtain ⟨hle, hone, hzero⟩ := hinv j
      show entryCount _ j ≤ 1 ∧ _
      rw [show (applyCommentOp s (.del cid)).comments =
          s.comments.map (fun l => removeFirstComment l cid) from rfl,
        show (applyCommentOp s (.del cid)).body =
          removeCommentReferences s.body cid from rfl,
        entryCount_del, startCount_removeCommentReferences,
        endCount_removeCommentReferences, refCount_removeCommentReferences]
      by_cases hj : j = cid
      · rw [if_pos hj, if_pos hj, if_pos hj, if_pos hj]
        exact ⟨by omega, fun h => by omega, fun _ => ⟨rfl, rfl, rfl⟩⟩
      · rw [if_neg hj, if_neg hj, if_neg hj, if_neg hj]
        exact ⟨hle, hone, hzero⟩

end DocxSurgery

namespace DocxSurgery

/-- C3, counterexample: starting from an invariant-satisfying package whose
single paragraph holds only a resolved image drawing (upload numbers it 1,
so the metadata store accepts comments on paragraph 1), one add-comment
operation appends the entry to `comments.xml` but inserts no anchor — the
text-only scan of `add_comment_reference_to_document` never reaches counter
1 — leaving the comment orphaned and the invariant broken. -/
theorem C3_add_comment_orphans_on_image_only_paragraph :
    anchorInvariant ⟨[.p imgPara], none⟩ ∧
    ¬ anchorInvariant
        (applyCommentOps ⟨[.p imgPara], none⟩
          [.add 1 1 ("alice") ("fix this")]) := by
  constructor
  · intro cid
    exact ⟨by simp [entryCount], fun h => by simp [entryCount] at h,
      fun _ => ⟨rfl, rfl, rfl⟩⟩
  · intro h
    obtain ⟨h1, h2, h3⟩ := h 1
    have hent : entryCount
        (applyCommentOps ⟨[.p imgPara], none⟩
          [.add 1 1 ("alice") ("fix this")]).comments 1 = 1 := by decide
    have hs := (h2 hent).1
    have hs0 : startCount
        (applyCommentOps ⟨[.p imgPara], none⟩
          [.add 1 1 ("alice") ("fix this")]).body 1 = 0 := by decide
    omega

/-- C3, amended: starting from a package satisfying the anchor-triad
invariant, any sequence of comment operations preserves it, provided each
add targets a paragraph number that the text-only scan resolves to a
paragraph containing at least one run and uses a comment id not already in
`comments.xml` (the view picks `max existing id + 1`); deletes are
unrestricted.  An add whose target does not resolve — e.g. a paragraph
numbered at upload only because of an image — appends an orphaned entry to
`comments.xml`, breaking the invariant (see the counterexample). -/
theorem C3_anchor_invariant_preserved (s : DocxState) (ops : List CommentOp)
    (hinv : anchorInvariant s) (hval : commentOpsValid s ops) :
    anchorInvariant (applyCommentOps s ops) := by
  induction ops generalizing s with
  | nil => exact hinv
  | cons op rest ih =>
      obtain ⟨h1, h2⟩ := hval
      exact ih (applyCommentOp s op)
        (commentOp_preserves_invariant s op hinv h1) h2

/-- Witness for C3: add a comment to a text paragraph, then delete it. -/
theorem C3_anchor_invariant_preserved_witness :
    anchorInvariant ⟨[.p (tPara ("A"))], none⟩ ∧
    commentOpsValid ⟨[.p (tPara ("A"))], none⟩
      [.add 1 1 ("bob") ("needs work"), .del 1] ∧
    anchorInvariant
      (applyCommentOps ⟨[.p (tPara ("A"))], none⟩
        [.add 1 1 ("bob") ("needs work"), .del 1]) := by
  have hinv0 : anchorInvariant ⟨[.p (tPara ("A"))], none⟩ := by
    intro cid
    exact ⟨by simp [entryCount], fun h => by simp [entryCount] at h,
      fun _ => ⟨rfl, rfl, rfl⟩⟩
  have hval : commentOpsValid ⟨[.p (tPara ("A"))], none⟩
      [.add 1 1 ("bob") ("needs work"), .del 1] :=
    ⟨⟨rfl, by decide⟩, trivial, trivial⟩
  exact ⟨hinv0, hval,
    C3_anchor_invariant_preserved ⟨[.p (tPara ("A"))], none⟩
      [.add 1 1 ("bob") ("needs work"), .del 1] hinv0 hval⟩

end DocxSurgery
